import Mathlib

/-!
# Sliding-window sender and receiver of `11-sr-1.c` and `sr.c`

A shallow embedding of the two protocol files and the properties proved about them.

* C `int` values are `Int`.  The handlers only ever add one to a counter or an index,
  so those additions are left unbounded; `ComputeChecksum` adds fields of a packet that
  arrives from the network, so every addition there is reduced to a 32-bit
  two's-complement value by `wrapInt`.
* C `%` truncates towards zero; it is `cmod` (`Int.tmod`).
* A `char` is the `Int` value of the byte.
* The handlers talk to the emulator through `tolayer3`, `tolayer5`, `starttimer` and
  `stoptimer`; a handler returns the new state together with the list of these calls in
  the order they were made.  `printf` output is not modelled.
* An access outside an array is undefined behaviour in C: a handler that makes one, and
  a loop model that runs out of fuel, returns `none`.
* `TRACE` is the emulator's trace level.  It is an argument of `A_input` of `11-sr-1.c`,
  the one handler whose effect on the state depends on it; everywhere else it only
  guards `printf`.
* Namespace `Sr1` is `11-sr-1.c`, namespace `Sr` is `sr.c`.
-/

/-- Modelled from the spec: `struct pkt` is declared in `emulator.h`, which is not among
the sources.  The fields are the ones the handlers read and write (spec section 3,
Packet): sequence number, acknowledgment number, integrity value and a payload of 20
bytes. -/
structure pkt where
  seqnum : Int
  acknum : Int
  checksum : Int
  payload : Fin 20 → Int
deriving DecidableEq

/-- Modelled from the spec: `struct msg` is declared in `emulator.h`, which is not among
the sources; `A_output` reads `message.data[i]` for `i < 20` (spec section 3, Message). -/
structure msg where
  data : Fin 20 → Int
deriving DecidableEq

/-- Modelled from the spec: the endpoint identifiers `A` and `B` of `emulator.h`, the
first argument of every call into the emulator (spec section 6, `endpointId`). -/
inductive Entity where
  | A
  | B
deriving DecidableEq

/-- The calls a handler makes into the emulator (spec section 6). -/
inductive Event where
  | tolayer3 (AorB : Entity) (packet : pkt)
  | tolayer5 (AorB : Entity) (datasent : Fin 20 → Int)
  | starttimer (AorB : Entity) (increment : Nat)
  | stoptimer (AorB : Entity)
deriving DecidableEq

/-- C remainder `a % b`: the quotient is truncated towards zero. -/
def cmod (a b : Int) : Int := Int.tmod a b

/-- The value an `int` holds after a sum: 32-bit two's complement. -/
def wrapInt (x : Int) : Int := (x + 2147483648) % 4294967296 - 2147483648

/-- The value of a C `bool` used as an `int`. -/
def boolToInt (b : Bool) : Int := if b then 1 else 0

/-- `ComputeChecksum` (identical text in both files): `seqnum + acknum` and then the 20
payload bytes added one after another. -/
def ComputeChecksum (packet : pkt) : Int :=
  (List.finRange 20).foldl (fun checksum i => wrapInt (checksum + packet.payload i))
    (wrapInt (packet.seqnum + packet.acknum))

/-- `IsCorrupted` (identical text in both files). -/
def IsCorrupted (packet : pkt) : Bool :=
  if packet.checksum = ComputeChecksum packet then false else true

/-- The index `i` of an access `a[i]` to an array of `n` elements; `none` when it lies
outside `0..n-1`. -/
def arrIdx (n : Nat) (i : Int) : Option (Fin n) :=
  if h : 0 ≤ i ∧ i < n then some ⟨i.toNat, by omega⟩ else none

/-- Read `a[i]`. -/
def rd {n : Nat} (a : Fin n → pkt) (i : Int) : Option pkt :=
  (arrIdx n i).map a

/-- Store `a[i] = v`. -/
def wr {n : Nat} (a : Fin n → pkt) (i : Int) (v : pkt) : Option (Fin n → pkt) :=
  (arrIdx n i).map fun k => Function.update a k v

/-- The packets an endpoint handed to layer 3, in order. -/
def sentBy (e : Entity) : List Event → List pkt
  | [] => []
  | Event.tolayer3 e' p :: rest => if e' = e then p :: sentBy e rest else sentBy e rest
  | _ :: rest => sentBy e rest

/-- The payloads handed to layer 5, in order. -/
def delivered : List Event → List (Fin 20 → Int)
  | [] => []
  | Event.tolayer5 _ d :: rest => d :: delivered rest
  | _ :: rest => delivered rest

/-- The timer calls, in order. -/
def timerOps : List Event → List Event
  | [] => []
  | Event.starttimer e t :: rest => Event.starttimer e t :: timerOps rest
  | Event.stoptimer e :: rest => Event.stoptimer e :: timerOps rest
  | _ :: rest => timerOps rest

/-- The all-zero packet: the value of an element of a `static` array before any store. -/
def zeroPkt : pkt := { seqnum := 0, acknum := 0, checksum := 0, payload := fun _ => 0 }

/-- The sum of the 20 payload bytes. -/
def payloadSum (packet : pkt) : Int := ((List.finRange 20).map packet.payload).sum

/-- A packet that carries the checksum computed over its other fields. -/
def mkPkt (seqnum acknum : Int) (payload : Fin 20 → Int) : pkt :=
  let hdr : pkt := { seqnum := seqnum, acknum := acknum, checksum := 0, payload := payload }
  { hdr with checksum := ComputeChecksum hdr }

/-- A packet whose stored checksum is not the computed one. -/
def badPkt : pkt := { zeroPkt with checksum := 1 }

/-- The payload `a` followed by 19 times `b`. -/
def payloadAB : Fin 20 → Int := fun i => if i.val = 0 then 97 else 98

/-- The payload `payloadAB` with its first two bytes exchanged. -/
def payloadBA : Fin 20 → Int := fun i => if i.val = 1 then 97 else 98

/-- The packet `mkPkt 0 (-1) payloadAB` after its first two payload bytes were exchanged
on the way: sequence number, acknowledgment number and checksum are the original ones. -/
def swappedPkt : pkt := { mkPkt 0 (-1) payloadAB with payload := payloadBA }

/-- The packet `mkPkt 0 (-1) payloadAB` after every payload byte was overwritten with
`z`: sequence number, acknowledgment number and checksum are the original ones. -/
def overwrittenPkt : pkt := { mkPkt 0 (-1) payloadAB with payload := fun _ => 122 }

namespace Sr1

/-! ## `11-sr-1.c` -/

def RTT : Nat := 16
def WINDOWSIZE : Int := 3
def SEQSPACE : Int := 8
def NOTINUSE : Int := -1

/-- The sender's variables: the `static` ones of the file, and the emulator's counters
that the sender handlers update. -/
structure AState where
  buffer : Fin 3 → pkt
  windowfirst : Int
  windowlast : Int
  windowcount : Int
  A_nextseqnum : Int
  newACK : Bool
  window_full : Int
  total_ACKs_received : Int
  new_ACKs : Int
  packets_resent : Int
deriving DecidableEq

/-- `A_output`. -/
def A_output (st : AState) (message : msg) : Option (AState × List Event) :=
  if st.windowcount < WINDOWSIZE then
    let hdr : pkt :=
      { seqnum := st.A_nextseqnum, acknum := NOTINUSE, checksum := 0,
        payload := fun i => message.data i }
    let sendpkt : pkt := { hdr with checksum := ComputeChecksum hdr }
    let windowlast := cmod (st.windowlast + 1) WINDOWSIZE
    match wr st.buffer windowlast sendpkt with
    | none => none
    | some buffer =>
      let windowcount := st.windowcount + 1
      some ({ st with
                buffer := buffer
                windowlast := windowlast
                windowcount := windowcount
                A_nextseqnum := cmod (st.A_nextseqnum + 1) SEQSPACE },
            Event.tolayer3 Entity.A sendpkt ::
              (if windowcount = 1 then [Event.starttimer Entity.A RTT] else []))
  else
    some ({ st with window_full := st.window_full + 1 }, [])

/-- One pass of the body of the `for` loop of `A_input`, at slot `i`. -/
def A_input_mark (packet : pkt) (st : AState) (i : Fin 3) : AState :=
  if (st.buffer i).seqnum = packet.acknum then
    if (st.buffer i).acknum = NOTINUSE then
      { st with
          buffer := Function.update st.buffer i { st.buffer i with acknum := packet.acknum }
          total_ACKs_received := st.total_ACKs_received + 1
          newACK := true }
    else st
  else st

/-- The `while` loop of `A_input`.  The statement `windowfirst = (windowfirst + 1) %
WINDOWSIZE` is the body of the `if (TRACE > 0)` that precedes it.  `fuel` bounds the
number of passes. -/
def A_input_slide (TRACE : Int) : Nat → AState → List Event → Option (AState × List Event)
  | 0, st, ev =>
    match rd st.buffer st.windowfirst with
    | none => none
    | some b => if b.seqnum = b.acknum ∧ st.windowcount > 0 then none else some (st, ev)
  | fuel + 1, st, ev =>
    match rd st.buffer st.windowfirst with
    | none => none
    | some b =>
      if b.seqnum = b.acknum ∧ st.windowcount > 0 then
        A_input_slide TRACE fuel
          { st with
              windowfirst :=
                if TRACE > 0 then cmod (st.windowfirst + 1) WINDOWSIZE else st.windowfirst
              windowcount := st.windowcount - 1
              new_ACKs := st.new_ACKs + 1 }
          (ev ++ [Event.stoptimer Entity.A, Event.starttimer Entity.A RTT])
      else some (st, ev)

/-- `A_input`.  Every pass of the `while` loop lowers `windowcount` and needs it
positive, so `windowcount` units of fuel cover all passes. -/
def A_input (TRACE : Int) (st : AState) (packet : pkt) : Option (AState × List Event) :=
  if !IsCorrupted packet then
    let st1 := (List.finRange 3).foldl (A_input_mark packet) { st with newACK := false }
    match A_input_slide TRACE st1.windowcount.toNat st1 [] with
    | none => none
    | some (st2, ev) =>
      some (st2,
        ev ++ (if st2.windowcount = 0 ∧ st2.newACK = true then [Event.stoptimer Entity.A]
               else []))
  else
    some (st, [])

/-- The `for` loop of `A_timerinterrupt`, over the values `i` takes. -/
def A_timerinterrupt_resend : List Nat → AState → List Event → Option (AState × List Event)
  | [], st, ev => some (st, ev)
  | i :: rest, st, ev =>
    match rd st.buffer (cmod (st.windowfirst + i) WINDOWSIZE) with
    | none => none
    | some b =>
      if b.acknum = NOTINUSE then
        A_timerinterrupt_resend rest { st with packets_resent := st.packets_resent + 1 }
          (ev ++ [Event.tolayer3 Entity.A b])
      else A_timerinterrupt_resend rest st ev

/-- `A_timerinterrupt`: `i` runs over `0..windowcount-1`. -/
def A_timerinterrupt (st : AState) : Option (AState × List Event) :=
  match A_timerinterrupt_resend (List.range st.windowcount.toNat) st [] with
  | none => none
  | some (st1, ev) => some (st1, ev ++ [Event.starttimer Entity.A RTT])

/-- The sender's variables after `A_init`: the `static` array is all zero, `newACK` is
`false`, the emulator's counters are zero. -/
def A_init : AState :=
  { buffer := fun _ => zeroPkt
    windowfirst := 0
    windowlast := -1
    windowcount := 0
    A_nextseqnum := 0
    newACK := false
    window_full := 0
    total_ACKs_received := 0
    new_ACKs := 0
    packets_resent := 0 }

/-- The receiver's variables, and the emulator's counter the receiver updates. -/
structure BState where
  expectedseqnum : Int
  B_nextseqnum : Int
  B_windowfirst : Int
  B_index : Int
  B_buffer : Fin 3 → pkt
  packets_received : Int
deriving DecidableEq

/-- The delivery `for` loop of `B_input`; `fuel` bounds the number of passes. -/
def B_input_deliver : Nat → BState → List Event → Option (BState × List Event)
  | 0, st, ev =>
    match rd st.B_buffer st.B_windowfirst with
    | none => none
    | some b => if b.seqnum = st.expectedseqnum then none else some (st, ev)
  | fuel + 1, st, ev =>
    match rd st.B_buffer st.B_windowfirst with
    | none => none
    | some b =>
      if b.seqnum = st.expectedseqnum then
        B_input_deliver fuel
          { st with
              expectedseqnum := cmod (st.expectedseqnum + 1) SEQSPACE
              B_windowfirst := cmod (st.B_windowfirst + 1) WINDOWSIZE }
          (ev ++ [Event.tolayer5 Entity.B b.payload])
      else some (st, ev)

/-- The window test and buffering part of `B_input` (the first `if` inside the
uncorrupted branch).  The delivery loop gets `WINDOWSIZE` units of fuel. -/
def B_input_window (st : BState) (packet : pkt) : Option (BState × List Event) :=
  let last := cmod (st.expectedseqnum + WINDOWSIZE - 1) SEQSPACE
  if (st.expectedseqnum < last ∧
        (packet.seqnum ≥ st.expectedseqnum ∧ packet.seqnum ≤ last)) ∨
      (st.expectedseqnum > last ∧
        (packet.seqnum ≥ st.expectedseqnum ∨ packet.seqnum ≤ last)) then
    let B_index := cmod (cmod (packet.seqnum - st.expectedseqnum + SEQSPACE) SEQSPACE) WINDOWSIZE
    match rd st.B_buffer B_index with
    | none => none
    | some slot =>
      if slot.seqnum ≠ packet.seqnum then
        match wr st.B_buffer B_index packet with
        | none => none
        | some B_buffer =>
          B_input_deliver 3
            { st with
                B_index := B_index
                packets_received := st.packets_received + 1
                B_buffer := B_buffer
                B_windowfirst := 0 }
            []
      else some ({ st with B_index := B_index }, [])
  else some (st, [])

/-- `B_input`. -/
def B_input (st : BState) (packet : pkt) : Option (BState × List Event) :=
  if !IsCorrupted packet then
    match B_input_window st packet with
    | none => none
    | some (st1, ev) =>
      let hdr : pkt :=
        { seqnum := NOTINUSE, acknum := packet.seqnum, checksum := 0, payload := fun _ => 48 }
      let sendpkt : pkt := { hdr with checksum := ComputeChecksum hdr }
      some (st1, ev ++ [Event.tolayer3 Entity.B sendpkt])
  else
    some (st, [])

/-- The receiver's variables after `B_init`: only `seqnum` of each element of the
`static` array is assigned, the emulator's counter is zero. -/
def B_init : BState :=
  { expectedseqnum := 0
    B_nextseqnum := 1
    B_windowfirst := 0
    B_index := 0
    B_buffer := fun _ => { zeroPkt with seqnum := NOTINUSE }
    packets_received := 0 }

/-! ### Driving the handlers -/

/-- `B_input` on each packet of a list in turn, the calls into the emulator
concatenated. -/
def B_inputs : BState → List pkt → Option (BState × List Event)
  | st, [] => some (st, [])
  | st, p :: ps =>
    match B_input st p with
    | none => none
    | some (st1, ev1) =>
      match B_inputs st1 ps with
      | none => none
      | some (st2, ev2) => some (st2, ev1 ++ ev2)

/-- `A_input` on each packet of a list in turn, the calls into the emulator
concatenated. -/
def A_inputs (TRACE : Int) : AState → List pkt → Option (AState × List Event)
  | st, [] => some (st, [])
  | st, p :: ps =>
    match A_input TRACE st p with
    | none => none
    | some (st1, ev1) =>
      match A_inputs TRACE st1 ps with
      | none => none
      | some (st2, ev2) => some (st2, ev1 ++ ev2)

/-- One message over a channel that neither loses nor alters packets: `A_output` on the
message, `B_input` on every packet A handed to layer 3, `A_input` on every packet B
handed to layer 3.  The result is the two states and what B handed to layer 5. -/
def exchange (TRACE : Int) (st : AState × BState) (message : msg) :
    Option ((AState × BState) × List (Fin 20 → Int)) :=
  match A_output st.1 message with
  | none => none
  | some (a1, evA) =>
    match B_inputs st.2 (sentBy Entity.A evA) with
    | none => none
    | some (b1, evB) =>
      match A_inputs TRACE a1 (sentBy Entity.B evB) with
      | none => none
      | some (a2, _) => some ((a2, b1), delivered evB)

/-- A list of messages over that channel, one `exchange` after another. -/
def transfer (TRACE : Int) :
    AState × BState → List msg → Option ((AState × BState) × List (Fin 20 → Int))
  | st, [] => some (st, [])
  | st, m :: ms =>
    match exchange TRACE st m with
    | none => none
    | some (st1, d1) =>
      match transfer TRACE st1 ms with
      | none => none
      | some (st2, d2) => some (st2, d1 ++ d2)

/-- The sender handlers, as one step of the sender. -/
inductive ACall where
  | output (message : msg)
  | input (packet : pkt)
  | timerinterrupt

/-- The handler a call names, applied to a state. -/
def ACall.run (TRACE : Int) (st : AState) : ACall → Option (AState × List Event)
  | ACall.output message => A_output st message
  | ACall.input packet => A_input TRACE st packet
  | ACall.timerinterrupt => A_timerinterrupt st

/-- The sender states reachable from `A_init` by handler calls that return. -/
inductive AReachable (TRACE : Int) : AState → Prop where
  | init : AReachable TRACE A_init
  | step (st st1 : AState) (c : ACall) (ev : List Event) :
      AReachable TRACE st → c.run TRACE st = some (st1, ev) → AReachable TRACE st1

/-- The buffer slot of position `x`, positions counted modulo `WINDOWSIZE`. -/
def slot (x : Int) : Fin 3 := ⟨(x % 3).toNat, by omega⟩

/-- What one pass of the `for` loop of `A_input` makes of the packet in a slot: a packet
with the acknowledged sequence number that is still marked `NOTINUSE` gets the mark. -/
def markSlot (packet : pkt) (b : pkt) : pkt :=
  if b.seqnum = packet.acknum ∧ b.acknum = NOTINUSE then { b with acknum := packet.acknum }
  else b

/-- The index variables of the sender are in range. -/
structure IndexInv (st : AState) : Prop where
  wf0 : 0 ≤ st.windowfirst
  wf3 : st.windowfirst < 3
  wl0 : -1 ≤ st.windowlast
  wc0 : 0 ≤ st.windowcount
  wc3 : st.windowcount ≤ 3

/-- The shape of the sender's window when `TRACE > 0`: the `windowcount` slots from
`windowfirst` on hold consecutive sequence numbers that end just before
`A_nextseqnum`, each marked `NOTINUSE` or acknowledged, the base packet is not
acknowledged, the next packet goes behind the last one, and no slot outside the window
is marked `NOTINUSE`. -/
structure SenderInv (st : AState) : Prop where
  wf0 : 0 ≤ st.windowfirst
  wf3 : st.windowfirst < 3
  wc0 : 0 ≤ st.windowcount
  wc3 : st.windowcount ≤ 3
  ns0 : 0 ≤ st.A_nextseqnum
  ns8 : st.A_nextseqnum < 8
  wl0 : -1 ≤ st.windowlast
  wl : (st.windowlast + 1) % 3 = (st.windowfirst + st.windowcount) % 3
  seq : ∀ i : Int, 0 ≤ i → i < st.windowcount →
    (st.buffer (slot (st.windowfirst + i))).seqnum =
      (st.A_nextseqnum - st.windowcount + i) % 8
  ack : ∀ i : Int, 0 ≤ i → i < st.windowcount →
    (st.buffer (slot (st.windowfirst + i))).acknum = NOTINUSE ∨
    (st.buffer (slot (st.windowfirst + i))).acknum =
      (st.buffer (slot (st.windowfirst + i))).seqnum
  base : 0 < st.windowcount → (st.buffer (slot st.windowfirst)).acknum = NOTINUSE
  stale : ∀ i : Int, st.windowcount ≤ i → i < 3 →
    (st.buffer (slot (st.windowfirst + i))).acknum ≠ NOTINUSE

/-- A list of handler calls, one after another. -/
def A_calls (TRACE : Int) : AState → List ACall → Option (AState × List Event)
  | st, [] => some (st, [])
  | st, c :: cs =>
    match c.run TRACE st with
    | none => none
    | some (st1, ev1) =>
      match A_calls TRACE st1 cs with
      | none => none
      | some (st2, ev2) => some (st2, ev1 ++ ev2)

/-- The two endpoints between two messages on a channel that neither loses nor alters
packets: the sender's window is empty, no message was refused, every buffer slot of the
sender is acknowledged, the receiver expects the sender's next sequence number, and the
receiver's first two slots do not hold what it will expect next. -/
structure LockstepInv (a : AState) (b : BState) : Prop where
  wc : a.windowcount = 0
  full : a.window_full = 0
  wf0 : 0 ≤ a.windowfirst
  wf3 : a.windowfirst < 3
  wl0 : -1 ≤ a.windowlast
  ns0 : 0 ≤ a.A_nextseqnum
  ns8 : a.A_nextseqnum < 8
  acked : ∀ k, (a.buffer k).seqnum = (a.buffer k).acknum
  expected : b.expectedseqnum = a.A_nextseqnum
  slot0 : (b.B_buffer 0).seqnum ≠ b.expectedseqnum
  slot1 : (b.B_buffer 1).seqnum = NOTINUSE

/-- The sender after `A_init` and `A_output` of three messages: 20 bytes `a`, 20 bytes
`b`, 20 bytes `c`. -/
def threeSent : AState :=
  { buffer :=
      Function.update
        (Function.update
          (Function.update (fun _ => zeroPkt) 0 (mkPkt 0 NOTINUSE fun _ => 97))
          1 (mkPkt 1 NOTINUSE fun _ => 98))
        2 (mkPkt 2 NOTINUSE fun _ => 99)
    windowfirst := 0
    windowlast := 2
    windowcount := 3
    A_nextseqnum := 3
    newACK := false
    window_full := 0
    total_ACKs_received := 0
    new_ACKs := 0
    packets_resent := 0 }

/-- The sender after `A_init` and `A_output` of one message of 20 bytes `a`. -/
def oneSent : AState :=
  { buffer := Function.update (fun _ => zeroPkt) 0 (mkPkt 0 NOTINUSE fun _ => 97)
    windowfirst := 0
    windowlast := 0
    windowcount := 1
    A_nextseqnum := 1
    newACK := false
    window_full := 0
    total_ACKs_received := 0
    new_ACKs := 0
    packets_resent := 0 }

/-- The packets of the window that are still marked `NOTINUSE`, in window order: slot
`(windowfirst + i) mod WINDOWSIZE` for `i = 0 .. windowcount - 1`. -/
def unackedInWindow (st : AState) : List pkt :=
  ((List.range st.windowcount.toNat).map
    fun i : Nat => st.buffer (slot (st.windowfirst + (i : Int)))).filter
    fun b => b.acknum = NOTINUSE

/-- The timer flag after a list of calls into the emulator: `starttimer` sets it,
`stoptimer` clears it. -/
def timerAfter : Bool → List Event → Bool
  | t, [] => t
  | _, Event.starttimer _ _ :: rest => timerAfter true rest
  | _, Event.stoptimer _ :: rest => timerAfter false rest
  | t, Event.tolayer3 _ _ :: rest => timerAfter t rest
  | t, Event.tolayer5 _ _ :: rest => timerAfter t rest

/-- One event at the sender, with the timer flag: `A_output` and `A_input` can occur at
any time; the timer fires only while the flag is set, and firing clears the flag before
`A_timerinterrupt` runs. -/
def timedStep (TRACE : Int) (s : AState × Bool) : ACall → Option (AState × Bool)
  | ACall.output message =>
    (A_output s.1 message).map fun r => (r.1, timerAfter s.2 r.2)
  | ACall.input packet =>
    (A_input TRACE s.1 packet).map fun r => (r.1, timerAfter s.2 r.2)
  | ACall.timerinterrupt =>
    if s.2 = true then (A_timerinterrupt s.1).map fun r => (r.1, timerAfter false r.2)
    else none

/-- The sender states and timer flags reachable from `A_init` with the timer off. -/
inductive TimedReachable (TRACE : Int) : AState × Bool → Prop where
  | init : TimedReachable TRACE (A_init, false)
  | step (s s1 : AState × Bool) (c : ACall) :
      TimedReachable TRACE s → timedStep TRACE s c = some s1 → TimedReachable TRACE s1

/-- The receiver states reachable from `B_init` by `B_input` calls on packets with
sequence numbers in `0 .. SEQSPACE - 1`. -/
inductive BReachable : BState → Prop where
  | init : BReachable B_init
  | step (st st1 : BState) (packet : pkt) (ev : List Event) :
      BReachable st → 0 ≤ packet.seqnum → packet.seqnum < SEQSPACE →
      B_input st packet = some (st1, ev) → BReachable st1

/-- What holds of the receiver between two calls: `expectedseqnum` is a sequence number
and slot 0 of `B_buffer` does not hold the expected packet. -/
structure ReceiverInv (st : BState) : Prop where
  e0 : 0 ≤ st.expectedseqnum
  e8 : st.expectedseqnum < 8
  slot0 : (st.B_buffer 0).seqnum ≠ st.expectedseqnum

/-- Nine data packets with valid checksums and pairwise different payloads: sequence
number 1 arrives ahead of 0, then 2 to 7 and the next 0 arrive in order. -/
def staleInput : List pkt :=
  [mkPkt 1 NOTINUSE fun _ => 101, mkPkt 0 NOTINUSE fun _ => 100, mkPkt 2 NOTINUSE fun _ => 102,
   mkPkt 3 NOTINUSE fun _ => 103, mkPkt 4 NOTINUSE fun _ => 104, mkPkt 5 NOTINUSE fun _ => 105,
   mkPkt 6 NOTINUSE fun _ => 106, mkPkt 7 NOTINUSE fun _ => 107, mkPkt 0 NOTINUSE fun _ => 108]

/-- A receiver that expects sequence number 0 and holds packets 1 and 2 in slots 1 and 2:
the state after `B_init` and the arrival of packets 1 and 2. -/
def twoWaiting : BState :=
  { expectedseqnum := 0
    B_nextseqnum := 1
    B_windowfirst := 0
    B_index := 2
    B_buffer :=
      Function.update
        (Function.update (fun _ => { zeroPkt with seqnum := NOTINUSE }) 1
          (mkPkt 1 NOTINUSE fun _ => 98))
        2 (mkPkt 2 NOTINUSE fun _ => 99)
    packets_received := 2 }

end Sr1

namespace Sr

/-! ## `sr.c` -/

def RTT : Nat := 16
def WINDOWSIZE : Int := 6
def SEQSPACE : Int := 12
def NOTINUSE : Int := -1

/-- The sender's variables: the `static` ones of the file, and the emulator's counters
that the sender handlers update. -/
structure AState where
  buffer : Fin 6 → pkt
  windowfirst : Int
  windowlast : Int
  windowcount : Int
  A_nextseqnum : Int
  first_seq : Int
  window_full : Int
  total_ACKs_received : Int
  new_ACKs : Int
  packets_resent : Int
deriving DecidableEq

/-- The wraparound window test written out in `A_output`, `A_input` and `B_input`:
`x` lies between `seqfirst` and `seqlast`. -/
def inWindow (seqfirst seqlast x : Int) : Bool :=
  decide ((seqfirst ≤ seqlast ∧ (x ≥ seqfirst ∧ x ≤ seqlast)) ∨
    (seqfirst > seqlast ∧ (x ≥ seqfirst ∨ x ≤ seqlast)))

/-- The buffer index the handlers compute for sequence number `x` in a window that starts
at `seqfirst`. -/
def windowIndex (seqfirst x : Int) : Int :=
  if x ≥ seqfirst then x - seqfirst else WINDOWSIZE - seqfirst + x

/-- `A_output`. -/
def A_output (st : AState) (message : msg) : Option (AState × List Event) :=
  let seqfirst := st.first_seq
  let seqlast := cmod (st.first_seq + WINDOWSIZE - 1) SEQSPACE
  if inWindow seqfirst seqlast st.A_nextseqnum then
    let hdr : pkt :=
      { seqnum := st.A_nextseqnum, acknum := NOTINUSE, checksum := 0,
        payload := fun i => message.data i }
    let sendpkt : pkt := { hdr with checksum := ComputeChecksum hdr }
    let index := windowIndex seqfirst st.A_nextseqnum
    match wr st.buffer index sendpkt with
    | none => none
    | some buffer =>
      let windowcount := st.windowcount + 1
      some ({ st with
                buffer := buffer
                windowcount := windowcount
                A_nextseqnum := cmod (st.A_nextseqnum + 1) SEQSPACE },
            Event.tolayer3 Entity.A sendpkt ::
              (if windowcount = 1 then [Event.starttimer Entity.A RTT] else []))
  else
    some ({ st with window_full := st.window_full + 1 }, [])

/-- The first `for` loop of the slide in `A_input`: the number of leading slots that are
acknowledged and whose payload is not the empty string
(`strcmp(buffer[i].payload, "") != 0` looks at the first byte only). -/
def A_input_ackcount (buffer : Fin 6 → pkt) : List (Fin 6) → Int → Int
  | [], ackcount => ackcount
  | i :: rest, ackcount =>
    if (buffer i).acknum ≠ NOTINUSE ∧ (buffer i).payload 0 ≠ 0 then
      A_input_ackcount buffer rest (ackcount + 1)
    else ackcount

/-- The second `for` loop of the slide in `A_input`: slot `i` takes the packet `ackcount`
slots further on when the test holds; the test reads `buffer[i + ackcount]` first. -/
def A_input_shift (ackcount A_nextseqnum : Int) :
    List (Fin 6) → (Fin 6 → pkt) → Option (Fin 6 → pkt)
  | [], buffer => some buffer
  | i :: rest, buffer =>
    match rd buffer ((i.val : Int) + ackcount) with
    | none => none
    | some src =>
      if src.acknum = NOTINUSE ∨ cmod ((buffer i).seqnum + ackcount) SEQSPACE = A_nextseqnum then
        A_input_shift ackcount A_nextseqnum rest (Function.update buffer i src)
      else A_input_shift ackcount A_nextseqnum rest buffer

/-- `A_input`.  Inside the uncorrupted branch `seqfirst` and `seqlast` are declared a
second time, from `buffer[windowfirst]` and `buffer[windowlast]`; the window test and
the index use these. -/
def A_input (st : AState) (packet : pkt) : Option (AState × List Event) :=
  if !IsCorrupted packet then
    let st1 := { st with total_ACKs_received := st.total_ACKs_received + 1 }
    match rd st1.buffer st1.windowfirst, rd st1.buffer st1.windowlast with
    | some bfirst, some blast =>
      let seqfirst := bfirst.seqnum
      let seqlast := blast.seqnum
      if inWindow seqfirst seqlast packet.acknum then
        let index := windowIndex seqfirst packet.acknum
        match arrIdx 6 index with
        | none => none
        | some k =>
          let st2 : AState :=
            if (st1.buffer k).acknum = NOTINUSE then
              { st1 with
                  new_ACKs := st1.new_ACKs + 1
                  windowcount := st1.windowcount - 1
                  buffer := Function.update st1.buffer k
                    { st1.buffer k with acknum := packet.acknum } }
            else st1
          if packet.acknum = seqfirst then
            let ackcount := A_input_ackcount st2.buffer (List.finRange 6) 0
            match A_input_shift ackcount st2.A_nextseqnum (List.finRange 6) st2.buffer with
            | none => none
            | some buffer =>
              some ({ st2 with
                        first_seq := cmod (st2.first_seq + ackcount) SEQSPACE
                        buffer := buffer },
                    Event.stoptimer Entity.A ::
                      (if st2.windowcount > 0 then [Event.starttimer Entity.A RTT] else []))
          else
            some ({ st2 with
                      buffer := Function.update st2.buffer k
                        { st2.buffer k with acknum := packet.acknum } },
                  [])
      else some (st1, [])
    | _, _ => none
  else
    some (st, [])

/-- `A_timerinterrupt`. -/
def A_timerinterrupt (st : AState) : Option (AState × List Event) :=
  some ({ st with packets_resent := st.packets_resent + 1 },
        [Event.tolayer3 Entity.A (st.buffer 0), Event.starttimer Entity.A RTT])

/-- The sender's variables after `A_init`: the `static` array is all zero, the emulator's
counters are zero. -/
def A_init : AState :=
  { buffer := fun _ => zeroPkt
    windowfirst := 0
    windowlast := -1
    windowcount := 0
    A_nextseqnum := 0
    first_seq := 0
    window_full := 0
    total_ACKs_received := 0
    new_ACKs := 0
    packets_resent := 0 }

/-- The receiver's `static` variables, and the emulator's counter the receiver updates. -/
structure BState where
  expectedseqnum : Int
  B_nextseqnum : Int
  B_buffer : Fin 6 → pkt
  B_windowfirst : Int
  B_windowlast : Int
  B_seqfirst : Int
  B_seqlast : Int
  B_windowcount : Int
  last : Int
  B_base : Int
  packets_received : Int
deriving DecidableEq

/-- Whether `strcmp(s, t) != 0` for two payload arrays: the bytes are compared up to the
first difference or the first zero byte; `none` when neither occurs within the 20 bytes
and the comparison runs past the arrays. -/
def strcmpNe (s t : Fin 20 → Int) : List (Fin 20) → Option Bool
  | [] => none
  | i :: rest =>
    if s i ≠ t i then some true
    else if s i = 0 then some false
    else strcmpNe s t rest

/-- The counting `for` loop of `B_input`. -/
def B_input_count (B_buffer : Fin 6 → pkt) : List (Fin 6) → Int → Int
  | [], count => count
  | i :: rest, count =>
    if (B_buffer i).acknum ≥ 0 ∧ (B_buffer i).payload 0 ≠ 0 then
      B_input_count B_buffer rest (count + 1)
    else count

/-- The `for` loop of `B_input` that moves the buffer down by `count` slots. -/
def B_input_shift (count last : Int) : List (Fin 6) → (Fin 6 → pkt) → Option (Fin 6 → pkt)
  | [], B_buffer => some B_buffer
  | i :: rest, B_buffer =>
    if (i.val : Int) + count ≤ last + 1 then
      match rd B_buffer ((i.val : Int) + count) with
      | none => none
      | some src => B_input_shift count last rest (Function.update B_buffer i src)
    else B_input_shift count last rest B_buffer

/-- The body of the `if` of `B_input`.  `B_input` declares a local `B_base` that hides
the `static` one and is read before it is assigned; `B_base` here is the value that read
yields. -/
def B_input_body (B_base : Int) (st : BState) (packet : pkt) : Option (BState × List Event) :=
  let st1 := { st with packets_received := st.packets_received + 1 }
  let hdr : pkt :=
    { seqnum := NOTINUSE, acknum := packet.seqnum, checksum := 0, payload := fun _ => 48 }
  let sendpkt : pkt := { hdr with checksum := ComputeChecksum hdr }
  let ack := Event.tolayer3 Entity.B sendpkt
  let B_seqfirst := B_base
  let B_seqlast := cmod (B_base + WINDOWSIZE - 1) SEQSPACE
  if inWindow B_seqfirst B_seqlast packet.seqnum then
    let B_index := windowIndex B_seqfirst packet.seqnum
    let st2 := { st1 with last := if st1.last > B_index then st1.last else B_index }
    match arrIdx 6 B_index with
    | none => none
    | some k =>
      match strcmpNe (st2.B_buffer k).payload packet.payload (List.finRange 20) with
      | none => none
      | some false => some (st2, [ack])
      | some true =>
        let packet1 : pkt := { packet with acknum := packet.seqnum }
        let B_buffer1 := Function.update st2.B_buffer k packet1
        if packet1.seqnum = B_seqfirst then
          let count := B_input_count B_buffer1 (List.finRange 6) 0
          match B_input_shift count st2.last (List.finRange 6) B_buffer1 with
          | none => none
          | some B_buffer2 =>
            some ({ st2 with B_buffer := B_buffer2 },
                  [ack, Event.tolayer5 Entity.B packet1.payload])
        else
          some ({ st2 with B_buffer := B_buffer1 },
                [ack, Event.tolayer5 Entity.B packet1.payload])
  else some (st1, [ack])

/-- `B_input`: the test is `IsCorrupted(packet)==-1`. -/
def B_input (B_base : Int) (st : BState) (packet : pkt) : Option (BState × List Event) :=
  if boolToInt (IsCorrupted packet) = -1 then B_input_body B_base st packet
  else some (st, [])

/-- The receiver's variables after `B_init`.  The assignment `last = -1;` stands after
the closing brace of `B_init`, at file scope, and gives `last` its first value. -/
def B_init : BState :=
  { expectedseqnum := 0
    B_nextseqnum := 1
    B_buffer := fun _ => { zeroPkt with seqnum := NOTINUSE }
    B_windowfirst := 0
    B_windowlast := -1
    B_seqfirst := 0
    B_seqlast := WINDOWSIZE - 1
    B_windowcount := 0
    last := -1
    B_base := 0
    packets_received := 0 }

/-- A read `buffer[i]` in an execution that does not stop at the bounds of the array:
outside `0 .. 5` it yields `mem i`, whatever the memory around the array holds. -/
def rdMem (mem : Int → pkt) (buffer : Fin 6 → pkt) (i : Int) : pkt :=
  match arrIdx 6 i with
  | some k => buffer k
  | none => mem i

/-- The second `for` loop of the slide in `A_input`, with reads by `rdMem`. -/
def A_input_shift_mem (mem : Int → pkt) (ackcount A_nextseqnum : Int) :
    List (Fin 6) → (Fin 6 → pkt) → (Fin 6 → pkt)
  | [], buffer => buffer
  | i :: rest, buffer =>
    if (rdMem mem buffer ((i.val : Int) + ackcount)).acknum = NOTINUSE ∨
        cmod ((buffer i).seqnum + ackcount) SEQSPACE = A_nextseqnum then
      A_input_shift_mem mem ackcount A_nextseqnum rest
        (Function.update buffer i (rdMem mem buffer ((i.val : Int) + ackcount)))
    else A_input_shift_mem mem ackcount A_nextseqnum rest buffer

/-- `A_input` once more, for an execution in which a read outside `buffer` yields the
content `mem` of the memory there instead of stopping the program: every read
`buffer[..]` is by `rdMem`; a store outside the array still gives `none`.  Where
`A_input` returns a result this is the same one (`A_input_mem_of_A_input`). -/
def A_input_mem (mem : Int → pkt) (st : AState) (packet : pkt) :
    Option (AState × List Event) :=
  if !IsCorrupted packet then
    let st1 := { st with total_ACKs_received := st.total_ACKs_received + 1 }
    let seqfirst := (rdMem mem st1.buffer st1.windowfirst).seqnum
    let seqlast := (rdMem mem st1.buffer st1.windowlast).seqnum
    if inWindow seqfirst seqlast packet.acknum then
      let index := windowIndex seqfirst packet.acknum
      match arrIdx 6 index with
      | none => none
      | some k =>
        let st2 : AState :=
          if (st1.buffer k).acknum = NOTINUSE then
            { st1 with
                new_ACKs := st1.new_ACKs + 1
                windowcount := st1.windowcount - 1
                buffer := Function.update st1.buffer k
                  { st1.buffer k with acknum := packet.acknum } }
          else st1
        if packet.acknum = seqfirst then
          let ackcount := A_input_ackcount st2.buffer (List.finRange 6) 0
          some ({ st2 with
                    first_seq := cmod (st2.first_seq + ackcount) SEQSPACE
                    buffer := A_input_shift_mem mem ackcount st2.A_nextseqnum
                      (List.finRange 6) st2.buffer },
                Event.stoptimer Entity.A ::
                  (if st2.windowcount > 0 then [Event.starttimer Entity.A RTT] else []))
        else
          some ({ st2 with
                    buffer := Function.update st2.buffer k
                      { st2.buffer k with acknum := packet.acknum } },
                [])
    else some (st1, [])
  else
    some (st, [])

/-- `A_input_mem` on each packet of a list in turn; the result is the state after each
packet. -/
def A_inputs_mem (mem : Int → pkt) : AState → List pkt → Option (List AState)
  | _, [] => some []
  | st, p :: ps =>
    match A_input_mem mem st p with
    | none => none
    | some (st1, _) =>
      match A_inputs_mem mem st1 ps with
      | none => none
      | some sts => some (st1 :: sts)

/-- `A_output` on each message of a list in turn, the calls into the emulator
concatenated. -/
def A_outputs : AState → List msg → Option (AState × List Event)
  | st, [] => some (st, [])
  | st, m :: ms =>
    match A_output st m with
    | none => none
    | some (st1, ev1) =>
      match A_outputs st1 ms with
      | none => none
      | some (st2, ev2) => some (st2, ev1 ++ ev2)

/-- Six messages, of 20 bytes `a`, `b`, `c`, `d`, `e` and `f`. -/
def sixMsgs : List msg :=
  [⟨fun _ => 97⟩, ⟨fun _ => 98⟩, ⟨fun _ => 99⟩, ⟨fun _ => 100⟩, ⟨fun _ => 101⟩, ⟨fun _ => 102⟩]

/-- The sender after `A_init` and `A_output` of the six messages `sixMsgs`. -/
def sixSent : AState :=
  { buffer :=
      Function.update
        (Function.update
          (Function.update
            (Function.update
              (Function.update
                (Function.update (fun _ => zeroPkt) 0 (mkPkt 0 NOTINUSE fun _ => 97))
                1 (mkPkt 1 NOTINUSE fun _ => 98))
              2 (mkPkt 2 NOTINUSE fun _ => 99))
            3 (mkPkt 3 NOTINUSE fun _ => 100))
          4 (mkPkt 4 NOTINUSE fun _ => 101))
        5 (mkPkt 5 NOTINUSE fun _ => 102)
    windowfirst := 0
    windowlast := -1
    windowcount := 6
    A_nextseqnum := 6
    first_seq := 0
    window_full := 0
    total_ACKs_received := 0
    new_ACKs := 0
    packets_resent := 0 }

/-- A sender state whose window has wrapped: it starts at sequence number 8 and the next
sequence number is 1. -/
def wrappedWindow : AState := { A_init with first_seq := 8, A_nextseqnum := 1, windowcount := 5 }

end Sr

/-! ## Arithmetic and checksum facts -/

theorem cmod_neg_left {a b : Int} (ha : a < 0) (hb : 0 ≤ b) : cmod a b = -((-a) % b) := by
  obtain ⟨n, rfl⟩ := Int.eq_ofNat_of_zero_le hb
  cases a with
  | ofNat m => exact absurd ha (by simp)
  | negSucc m => rfl

/-- C remainder in terms of the Euclidean remainder. -/
theorem cmod_eq (a b : Int) : cmod a b = if 0 ≤ a then a % b else -((-a) % b) := by
  rcases le_or_lt 0 b with hb | hb
  · split_ifs with ha
    · exact Int.tmod_eq_emod ha hb
    · exact cmod_neg_left (by omega) hb
  · obtain ⟨c, rfl⟩ : ∃ c, b = -c := ⟨-b, by omega⟩
    rw [Int.emod_neg, Int.emod_neg]
    unfold cmod
    rw [Int.tmod_neg]
    split_ifs with ha
    · exact Int.tmod_eq_emod ha (by omega)
    · exact cmod_neg_left (by omega) (by omega)

theorem cmod_of_nonneg {a b : Int} (ha : 0 ≤ a) : cmod a b = a % b := by
  rw [cmod_eq, if_pos ha]

theorem arrIdx_of_lt {n : Nat} {i : Int} (h0 : 0 ≤ i) (hn : i < n) :
    ∃ k : Fin n, arrIdx n i = some k ∧ (k.val : Int) = i := by
  refine ⟨⟨i.toNat, by omega⟩, ?_, ?_⟩
  · simp [arrIdx, h0, hn]
  · simp [Int.toNat_of_nonneg h0]

theorem arrIdx_val {n : Nat} {i : Int} {k : Fin n} (h : arrIdx n i = some k) :
    (k.val : Int) = i := by
  unfold arrIdx at h
  split at h
  · rename_i hi
    cases h
    simp [Int.toNat_of_nonneg hi.1]
  · cases h

theorem wrapInt_add_wrapInt (a b : Int) : wrapInt (wrapInt a + b) = wrapInt (a + b) := by
  unfold wrapInt
  omega

theorem checksum_foldl (f : Fin 20 → Int) (l : List (Fin 20)) (a : Int) :
    l.foldl (fun checksum i => wrapInt (checksum + f i)) (wrapInt a) =
      wrapInt (a + (l.map f).sum) := by
  induction l generalizing a with
  | nil => simp
  | cons i l ih =>
    simp only [List.foldl_cons, List.map_cons, List.sum_cons]
    rw [wrapInt_add_wrapInt, ih]
    congr 1
    ring

/-- `ComputeChecksum` is `seqnum + acknum + ` the sum of the payload bytes, as an `int`. -/
theorem ComputeChecksum_eq (packet : pkt) :
    ComputeChecksum packet = wrapInt (packet.seqnum + packet.acknum + payloadSum packet) := by
  unfold ComputeChecksum payloadSum
  exact checksum_foldl packet.payload (List.finRange 20) (packet.seqnum + packet.acknum)

theorem ComputeChecksum_with_checksum (p : pkt) (c : Int) :
    ComputeChecksum { p with checksum := c } = ComputeChecksum p := rfl

/-- A packet that carries the checksum computed over its own fields is not corrupted. -/
theorem IsCorrupted_with_ComputeChecksum (p : pkt) :
    IsCorrupted { p with checksum := ComputeChecksum p } = false := by
  simp [IsCorrupted, ComputeChecksum_with_checksum]

theorem IsCorrupted_eq_false_iff (p : pkt) :
    IsCorrupted p = false ↔ p.checksum = ComputeChecksum p := by
  simp [IsCorrupted]

theorem IsCorrupted_eq_true_iff (p : pkt) :
    IsCorrupted p = true ↔ p.checksum ≠ ComputeChecksum p := by
  simp [IsCorrupted]

theorem boolToInt_ne_neg_one (b : Bool) : boolToInt b ≠ -1 := by
  cases b <;> simp [boolToInt]

theorem map_sum_bounds (f : Fin 20 → Int) (lo hi : Int) (h : ∀ i, lo ≤ f i ∧ f i ≤ hi)
    (l : List (Fin 20)) :
    l.length * lo ≤ (l.map f).sum ∧ (l.map f).sum ≤ l.length * hi := by
  induction l with
  | nil => simp
  | cons i l ih =>
    have := h i
    simp only [List.map_cons, List.sum_cons, List.length_cons, Nat.cast_add, Nat.cast_one]
    constructor <;> nlinarith [ih.1, ih.2, this.1, this.2]

/-- Bytes are `char` values, signed or unsigned, so the payload sum is small. -/
theorem payloadSum_bounds (p : pkt) (h : ∀ i, -128 ≤ p.payload i ∧ p.payload i ≤ 255) :
    -2560 ≤ payloadSum p ∧ payloadSum p ≤ 5100 := by
  have := map_sum_bounds p.payload (-128) 255 h (List.finRange 20)
  simp only [List.length_finRange] at this
  unfold payloadSum
  constructor <;> omega

theorem wrapInt_eq_iff (x y : Int) (h : -4294967296 < x - y) (h' : x - y < 4294967296) :
    wrapInt x = wrapInt y ↔ x = y := by
  unfold wrapInt
  omega

/-! ## Calls into the emulator -/

theorem sentBy_append (e : Entity) (l1 l2 : List Event) :
    sentBy e (l1 ++ l2) = sentBy e l1 ++ sentBy e l2 := by
  induction l1 with
  | nil => rfl
  | cons x l ih =>
    cases x with
    | tolayer3 e' p =>
      simp only [List.cons_append, sentBy]
      split <;> simp [ih]
    | tolayer5 e' d => simpa [sentBy] using ih
    | starttimer e' t => simpa [sentBy] using ih
    | stoptimer e' => simpa [sentBy] using ih

theorem delivered_append (l1 l2 : List Event) :
    delivered (l1 ++ l2) = delivered l1 ++ delivered l2 := by
  induction l1 with
  | nil => rfl
  | cons x l ih => cases x <;> simp [delivered, ih]

theorem sentBy_tolayer5 (e e' : Entity) (ds : List (Fin 20 → Int)) :
    sentBy e (ds.map (Event.tolayer5 e')) = [] := by
  induction ds with
  | nil => rfl
  | cons d ds ih => simpa [sentBy] using ih

theorem delivered_tolayer5 (e' : Entity) (ds : List (Fin 20 → Int)) :
    delivered (ds.map (Event.tolayer5 e')) = ds := by
  induction ds with
  | nil => rfl
  | cons d ds ih => simp [delivered, ih]

/-! ## The receiver of `11-sr-1.c` -/

namespace Sr1

theorem B_input_deliver_zero (st : BState) (ev : List Event) (k : Fin 3)
    (hk : arrIdx 3 st.B_windowfirst = some k) :
    B_input_deliver 0 st ev =
      if (st.B_buffer k).seqnum = st.expectedseqnum then none else some (st, ev) := by
  simp [B_input_deliver, rd, hk]

theorem B_input_deliver_succ (fuel : Nat) (st : BState) (ev : List Event) (k : Fin 3)
    (hk : arrIdx 3 st.B_windowfirst = some k) :
    B_input_deliver (fuel + 1) st ev =
      if (st.B_buffer k).seqnum = st.expectedseqnum then
        B_input_deliver fuel
          { st with
              expectedseqnum := cmod (st.expectedseqnum + 1) SEQSPACE
              B_windowfirst := cmod (st.B_windowfirst + 1) WINDOWSIZE }
          (ev ++ [Event.tolayer5 Entity.B (st.B_buffer k).payload])
      else some (st, ev) := by
  simp [B_input_deliver, rd, hk]

/-- The delivery loop only hands payloads to layer 5. -/
theorem B_input_deliver_events (fuel : Nat) (st : BState) (ev : List Event)
    (st' : BState) (ev' : List Event) (h : B_input_deliver fuel st ev = some (st', ev')) :
    ∃ ds : List (Fin 20 → Int), ev' = ev ++ ds.map (Event.tolayer5 Entity.B) := by
  induction fuel generalizing st ev with
  | zero =>
    unfold B_input_deliver at h
    split at h
    · cases h
    · split at h
      · cases h
      · cases h; exact ⟨[], by simp⟩
  | succ n ih =>
    unfold B_input_deliver at h
    split at h
    · cases h
    · split at h
      · obtain ⟨ds, hds⟩ := ih _ _ h
        rename_i b _ _
        exact ⟨b.payload :: ds, by simp [hds]⟩
      · cases h; exact ⟨[], by simp⟩

/-- The delivery loop makes at most `WINDOWSIZE` passes: the fourth test compares the
slot of the first with a sequence number three further on. -/
theorem B_input_deliver_terminates (st : BState) (ev : List Event)
    (h0 : st.B_windowfirst = 0) (he : 0 ≤ st.expectedseqnum)
    (he' : st.expectedseqnum < SEQSPACE) :
    ∃ r, B_input_deliver 3 st ev = some r := by
  obtain ⟨buf, e, w, i, n, r⟩ := st
  simp only at h0 he he'
  subst h0
  unfold SEQSPACE at he'
  rw [B_input_deliver_succ 2 _ _ 0 (by rfl)]
  split
  · rename_i h1
    rw [B_input_deliver_succ 1 _ _ 1 (by rfl)]
    split
    · rename_i h2
      rw [B_input_deliver_succ 0 _ _ 2 (by rfl)]
      split
      · rename_i h3
        rw [B_input_deliver_zero _ _ 0 (by rfl)]
        split
        · rename_i h4
          exfalso
          simp only [cmod_eq, SEQSPACE] at h1 h2 h3 h4
          split_ifs at h1 h2 h3 h4 <;> omega
        · exact ⟨_, rfl⟩
      · exact ⟨_, rfl⟩
    · exact ⟨_, rfl⟩
  · exact ⟨_, rfl⟩

/-- With `expectedseqnum` and `packet.seqnum` in `0..SEQSPACE-1` the window part of
`B_input` returns, and all it does towards the emulator is hand payloads to layer 5. -/
theorem B_input_window_returns (st : BState) (packet : pkt)
    (he : 0 ≤ st.expectedseqnum) (he' : st.expectedseqnum < SEQSPACE)
    (hs : 0 ≤ packet.seqnum) (hs' : packet.seqnum < SEQSPACE) :
    ∃ (st1 : BState) (ds : List (Fin 20 → Int)),
      B_input_window st packet = some (st1, ds.map (Event.tolayer5 Entity.B)) := by
  unfold B_input_window
  simp only
  split
  · have hi : cmod (cmod (packet.seqnum - st.expectedseqnum + SEQSPACE) SEQSPACE) WINDOWSIZE =
        ((packet.seqnum - st.expectedseqnum + SEQSPACE) % SEQSPACE) % WINDOWSIZE := by
      unfold SEQSPACE at *
      rw [cmod_of_nonneg (a := packet.seqnum - st.expectedseqnum + 8) (by omega),
        cmod_of_nonneg (by omega)]
    obtain ⟨k, hk, -⟩ := arrIdx_of_lt (n := 3)
      (i := ((packet.seqnum - st.expectedseqnum + SEQSPACE) % SEQSPACE) % WINDOWSIZE)
      (by unfold WINDOWSIZE; omega) (by unfold WINDOWSIZE; omega)
    simp only [hi, rd, wr, hk, Option.map_some']
    split
    · obtain ⟨⟨st1, ev⟩, hr⟩ := B_input_deliver_terminates
        { st with
            B_index := ((packet.seqnum - st.expectedseqnum + SEQSPACE) % SEQSPACE) % WINDOWSIZE
            packets_received := st.packets_received + 1
            B_buffer := Function.update st.B_buffer k packet
            B_windowfirst := 0 } [] rfl he he'
      obtain ⟨ds, hds⟩ := B_input_deliver_events _ _ _ _ _ hr
      exact ⟨st1, ds, by rw [hr, hds]; simp⟩
    · exact ⟨_, [], rfl⟩
  · exact ⟨_, [], rfl⟩

/-- C2, evaluated on `staleInput`: the nine packets are uncorrupted, carry sequence numbers
in `0..SEQSPACE-1` and pairwise different payloads, and fed to `B_input` from `B_init`
they make it hand ten payloads to layer 5: the payload of the first packet (sequence
number 1) is handed over a second time after the second packet with sequence number 0,
from the slot it was left in. -/
theorem B_input_redelivers_stale_slot :
    (∀ p ∈ staleInput, IsCorrupted p = false ∧ 0 ≤ p.seqnum ∧ p.seqnum < SEQSPACE) ∧
    staleInput.Pairwise (fun p q => p.payload ≠ q.payload) ∧
    (B_inputs B_init staleInput).map (fun r => delivered r.2) =
      some [fun _ => 100, fun _ => 101, fun _ => 102, fun _ => 103, fun _ => 104,
            fun _ => 105, fun _ => 106, fun _ => 107, fun _ => 108, fun _ => 101] := by
  set_option maxRecDepth 100000 in decide

/-- C3: for `expectedseqnum` and `packet.seqnum` in `0..SEQSPACE-1` and an uncorrupted
packet, `B_input` returns and hands exactly one packet to layer 3; that packet has
`acknum = packet.seqnum`, `seqnum = NOTINUSE` and is not corrupted.  Nothing is assumed
about the position of `packet.seqnum` relative to the window or about the buffer. -/
theorem B_input_acknowledges (st : BState) (packet : pkt)
    (he : 0 ≤ st.expectedseqnum) (he' : st.expectedseqnum < SEQSPACE)
    (hp : IsCorrupted packet = false)
    (hs : 0 ≤ packet.seqnum) (hs' : packet.seqnum < SEQSPACE) :
    ∃ (st1 : BState) (ev : List Event) (ack : pkt),
      B_input st packet = some (st1, ev) ∧
      sentBy Entity.B ev = [ack] ∧ sentBy Entity.A ev = [] ∧
      ack.acknum = packet.seqnum ∧ ack.seqnum = NOTINUSE ∧ IsCorrupted ack = false := by
  obtain ⟨st1, ds, hw⟩ := B_input_window_returns st packet he he' hs hs'
  let hdr : pkt :=
    { seqnum := NOTINUSE, acknum := packet.seqnum, checksum := 0, payload := fun _ => 48 }
  refine ⟨st1, ds.map (Event.tolayer5 Entity.B) ++
    [Event.tolayer3 Entity.B { hdr with checksum := ComputeChecksum hdr }],
    { hdr with checksum := ComputeChecksum hdr }, ?_, ?_, ?_, rfl, rfl,
    IsCorrupted_with_ComputeChecksum hdr⟩
  · simp [B_input, hp, hw]
  · simp [sentBy_append, sentBy_tolayer5, sentBy]
  · simp [sentBy_append, sentBy_tolayer5, sentBy]

theorem B_input_acknowledges_witness :
    (0 ≤ B_init.expectedseqnum ∧ B_init.expectedseqnum < SEQSPACE ∧
      IsCorrupted (mkPkt 5 NOTINUSE fun _ => 97) = false ∧
      0 ≤ (mkPkt 5 NOTINUSE fun _ => 97).seqnum ∧
      (mkPkt 5 NOTINUSE fun _ => 97).seqnum < SEQSPACE) ∧
    ∃ (st1 : BState) (ev : List Event) (ack : pkt),
      B_input B_init (mkPkt 5 NOTINUSE fun _ => 97) = some (st1, ev) ∧
      sentBy Entity.B ev = [ack] ∧ sentBy Entity.A ev = [] ∧
      ack.acknum = (mkPkt 5 NOTINUSE fun _ => 97).seqnum ∧ ack.seqnum = NOTINUSE ∧
      IsCorrupted ack = false :=
  ⟨by set_option maxRecDepth 100000 in decide,
   B_input_acknowledges B_init (mkPkt 5 NOTINUSE fun _ => 97) (by decide) (by decide)
     (by set_option maxRecDepth 100000 in decide) (by decide) (by decide)⟩

end Sr1

/-- C4, evaluated: `B_input` of `sr.c` tests `IsCorrupted(packet)==-1`, which holds for no
packet, so for the uncorrupted packet `mkPkt 0 (-1) (fun _ => 97)`, as for any other, it
returns without a call into the emulator and without a change of state: no
acknowledgment is sent. -/
theorem Sr.B_input_sends_no_ack :
    IsCorrupted (mkPkt 0 Sr.NOTINUSE fun _ => 97) = false ∧
    ∀ (B_base : Int) (st : Sr.BState) (packet : pkt),
      Sr.B_input B_base st packet = some (st, []) :=
  ⟨by set_option maxRecDepth 100000 in decide,
   fun B_base st packet => by simp [Sr.B_input, boolToInt_ne_neg_one]⟩

/-- C5: a corrupted packet is ignored by `A_input` and by `B_input` of both files: the
handler returns without any call into the emulator (nothing to layer 3, nothing to layer
5, no timer call) and with every variable and counter as it was. -/
theorem corrupted_packet_ignored (TRACE B_base : Int) (packet : pkt)
    (h : IsCorrupted packet = true)
    (a1 : Sr1.AState) (b1 : Sr1.BState) (a : Sr.AState) (b : Sr.BState) :
    Sr1.A_input TRACE a1 packet = some (a1, []) ∧ Sr1.B_input b1 packet = some (b1, []) ∧
    Sr.A_input a packet = some (a, []) ∧ Sr.B_input B_base b packet = some (b, []) := by
  refine ⟨?_, ?_, ?_, ?_⟩
  · simp [Sr1.A_input, h]
  · simp [Sr1.B_input, h]
  · simp [Sr.A_input, h]
  · simp [Sr.B_input, boolToInt_ne_neg_one]

theorem corrupted_packet_ignored_witness :
    IsCorrupted badPkt = true ∧
    (Sr1.A_input 1 Sr1.A_init badPkt = some (Sr1.A_init, []) ∧
      Sr1.B_input Sr1.B_init badPkt = some (Sr1.B_init, []) ∧
      Sr.A_input Sr.A_init badPkt = some (Sr.A_init, []) ∧
      Sr.B_input 0 Sr.B_init badPkt = some (Sr.B_init, [])) :=
  ⟨by set_option maxRecDepth 100000 in decide,
   corrupted_packet_ignored 1 0 badPkt (by set_option maxRecDepth 100000 in decide) _ _ _ _⟩

/-- C6 as stated fails: `swappedPkt` has the sequence number, acknowledgment number and
checksum of the valid packet `mkPkt 0 (-1) payloadAB` and a different payload, yet its
computed checksum is the stored one, it is not corrupted, and `B_input` of `11-sr-1.c`
acknowledges it. -/
theorem swapped_payload_not_detected :
    IsCorrupted (mkPkt 0 (-1) payloadAB) = false ∧
    swappedPkt.seqnum = (mkPkt 0 (-1) payloadAB).seqnum ∧
    swappedPkt.acknum = (mkPkt 0 (-1) payloadAB).acknum ∧
    swappedPkt.checksum = (mkPkt 0 (-1) payloadAB).checksum ∧
    swappedPkt.payload ≠ (mkPkt 0 (-1) payloadAB).payload ∧
    ComputeChecksum swappedPkt = (mkPkt 0 (-1) payloadAB).checksum ∧
    IsCorrupted swappedPkt = false ∧
    (Sr1.B_input Sr1.B_init swappedPkt).map (fun r => sentBy Entity.B r.2) =
      some [mkPkt (-1) 0 fun _ => 48] := by
  set_option maxRecDepth 100000 in decide

/-- C6, amended: for a packet `p` with a valid checksum and a packet `q` with the same
sequence number, acknowledgment number and checksum, all payload bytes being `char`
values, the checksum computed over `q` differs from the stored one exactly when the sum
of the payload bytes of `q` differs from that of `p`; then `q` is corrupted and
`B_input` of `11-sr-1.c` returns without sending anything and without a change of
state. -/
theorem payload_change_detected (p q : pkt) (hp : IsCorrupted p = false)
    (hs : q.seqnum = p.seqnum) (ha : q.acknum = p.acknum) (hc : q.checksum = p.checksum)
    (hpb : ∀ i, -128 ≤ p.payload i ∧ p.payload i ≤ 255)
    (hqb : ∀ i, -128 ≤ q.payload i ∧ q.payload i ≤ 255) :
    (ComputeChecksum q ≠ p.checksum ↔ payloadSum q ≠ payloadSum p) ∧
    (payloadSum q ≠ payloadSum p →
      IsCorrupted q = true ∧ ∀ st : Sr1.BState, Sr1.B_input st q = some (st, [])) := by
  have hpc : p.checksum = ComputeChecksum p := (IsCorrupted_eq_false_iff p).1 hp
  have hP := payloadSum_bounds p hpb
  have hQ := payloadSum_bounds q hqb
  have key : ComputeChecksum q = p.checksum ↔ payloadSum q = payloadSum p := by
    rw [hpc, ComputeChecksum_eq, ComputeChecksum_eq, hs, ha,
      wrapInt_eq_iff _ _ (by omega) (by omega)]
    omega
  refine ⟨not_congr key, fun hne => ?_⟩
  have hq : IsCorrupted q = true := by
    rw [IsCorrupted_eq_true_iff, hc]
    exact fun h => hne (key.1 h.symm)
  exact ⟨hq, fun st => by simp [Sr1.B_input, hq]⟩

theorem payload_change_detected_witness :
    (IsCorrupted (mkPkt 0 (-1) payloadAB) = false ∧
      overwrittenPkt.seqnum = (mkPkt 0 (-1) payloadAB).seqnum ∧
      overwrittenPkt.acknum = (mkPkt 0 (-1) payloadAB).acknum ∧
      overwrittenPkt.checksum = (mkPkt 0 (-1) payloadAB).checksum ∧
      (∀ i, -128 ≤ (mkPkt 0 (-1) payloadAB).payload i ∧
        (mkPkt 0 (-1) payloadAB).payload i ≤ 255) ∧
      (∀ i, -128 ≤ overwrittenPkt.payload i ∧ overwrittenPkt.payload i ≤ 255)) ∧
    ((ComputeChecksum overwrittenPkt ≠ (mkPkt 0 (-1) payloadAB).checksum ↔
        payloadSum overwrittenPkt ≠ payloadSum (mkPkt 0 (-1) payloadAB)) ∧
      (payloadSum overwrittenPkt ≠ payloadSum (mkPkt 0 (-1) payloadAB) →
        IsCorrupted overwrittenPkt = true ∧
        ∀ st : Sr1.BState, Sr1.B_input st overwrittenPkt = some (st, []))) :=
  ⟨by set_option maxRecDepth 100000 in decide,
   payload_change_detected (mkPkt 0 (-1) payloadAB) overwrittenPkt
     (by set_option maxRecDepth 100000 in decide) rfl rfl rfl
     (by set_option maxRecDepth 100000 in decide)
     (by set_option maxRecDepth 100000 in decide)⟩

/-! ## The sender of `11-sr-1.c` -/

namespace Sr1

/-- C7: with `windowcount < WINDOWSIZE` and `windowlast >= -1`, `A_output` hands exactly
one packet to layer 3; it has `seqnum` the old `A_nextseqnum`, `acknum = NOTINUSE`, the
20 bytes of the message as payload and is not corrupted.  The packet is stored in
`buffer[(windowlast + 1) mod WINDOWSIZE]`, `windowlast` becomes that index, `windowcount`
grows by one, `A_nextseqnum` becomes `(A_nextseqnum + 1) % SEQSPACE` (the C remainder,
which is the remainder modulo `SEQSPACE` when `A_nextseqnum >= 0`), and `starttimer` is
called exactly when `windowcount` was 0. -/
theorem A_output_sends (st : AState) (message : msg)
    (hc : st.windowcount < WINDOWSIZE) (hl0 : -1 ≤ st.windowlast) :
    ∃ (sendpkt : pkt) (k : Fin 3),
      sendpkt.seqnum = st.A_nextseqnum ∧ sendpkt.acknum = NOTINUSE ∧
      sendpkt.payload = message.data ∧ IsCorrupted sendpkt = false ∧
      (k.val : Int) = (st.windowlast + 1) % WINDOWSIZE ∧
      A_output st message =
        some ({ st with
                  buffer := Function.update st.buffer k sendpkt
                  windowlast := (st.windowlast + 1) % WINDOWSIZE
                  windowcount := st.windowcount + 1
                  A_nextseqnum := cmod (st.A_nextseqnum + 1) SEQSPACE },
              Event.tolayer3 Entity.A sendpkt ::
                (if st.windowcount = 0 then [Event.starttimer Entity.A RTT] else [])) ∧
      (0 ≤ st.A_nextseqnum →
        cmod (st.A_nextseqnum + 1) SEQSPACE = (st.A_nextseqnum + 1) % SEQSPACE) := by
  have hw : cmod (st.windowlast + 1) WINDOWSIZE = (st.windowlast + 1) % WINDOWSIZE :=
    cmod_of_nonneg (by omega)
  obtain ⟨k, hk, hkv⟩ := arrIdx_of_lt (n := 3) (i := (st.windowlast + 1) % WINDOWSIZE)
    (by unfold WINDOWSIZE; omega) (by unfold WINDOWSIZE; omega)
  let hdr : pkt :=
    { seqnum := st.A_nextseqnum, acknum := NOTINUSE, checksum := 0,
      payload := fun i => message.data i }
  refine ⟨{ hdr with checksum := ComputeChecksum hdr }, k, rfl, rfl, rfl,
    IsCorrupted_with_ComputeChecksum hdr, hkv, ?_, ?_⟩
  · simp only [A_output, if_pos hc, hw, wr, hk, Option.map_some']
    have : (st.windowcount + 1 = 1) ↔ st.windowcount = 0 := by omega
    simp [this]
  · intro h
    exact cmod_of_nonneg (by omega)

theorem A_output_sends_witness :
    (A_init.windowcount < WINDOWSIZE ∧ -1 ≤ A_init.windowlast) ∧
    ∃ (sendpkt : pkt) (k : Fin 3),
      sendpkt.seqnum = A_init.A_nextseqnum ∧ sendpkt.acknum = NOTINUSE ∧
      sendpkt.payload = (msg.mk fun _ => 97).data ∧ IsCorrupted sendpkt = false ∧
      (k.val : Int) = (A_init.windowlast + 1) % WINDOWSIZE ∧
      A_output A_init (msg.mk fun _ => 97) =
        some ({ A_init with
                  buffer := Function.update A_init.buffer k sendpkt
                  windowlast := (A_init.windowlast + 1) % WINDOWSIZE
                  windowcount := A_init.windowcount + 1
                  A_nextseqnum := cmod (A_init.A_nextseqnum + 1) SEQSPACE },
              Event.tolayer3 Entity.A sendpkt ::
                (if A_init.windowcount = 0 then [Event.starttimer Entity.A RTT] else [])) ∧
      (0 ≤ A_init.A_nextseqnum →
        cmod (A_init.A_nextseqnum + 1) SEQSPACE = (A_init.A_nextseqnum + 1) % SEQSPACE) :=
  ⟨by decide, A_output_sends A_init (msg.mk fun _ => 97) (by decide) (by decide)⟩

/-- C8: with `windowcount >= WINDOWSIZE`, `A_output` makes no call into the emulator
(nothing to layer 3, no timer call) and changes nothing but `window_full`, which grows
by one. -/
theorem A_output_window_full (st : AState) (message : msg)
    (h : st.windowcount ≥ WINDOWSIZE) :
    A_output st message = some ({ st with window_full := st.window_full + 1 }, []) := by
  have h' : ¬ st.windowcount < WINDOWSIZE := by omega
  simp [A_output, h']

theorem A_output_window_full_witness :
    ({ A_init with windowcount := 3 } : AState).windowcount ≥ WINDOWSIZE ∧
    A_output { A_init with windowcount := 3 } (msg.mk fun _ => 97) =
      some ({ A_init with windowcount := 3, window_full := 1 }, []) :=
  ⟨by decide, A_output_window_full _ _ (by decide)⟩

theorem slot_eq_iff (x y : Int) : slot x = slot y ↔ x % 3 = y % 3 := by
  unfold slot
  rw [Fin.mk.injEq]
  omega

theorem arrIdx_eq_slot {i : Int} (h0 : 0 ≤ i) (h3 : i < 3) : arrIdx 3 i = some (slot i) := by
  obtain ⟨k, hk, hkv⟩ := arrIdx_of_lt (n := 3) h0 (by omega)
  rw [hk]
  congr 1
  apply Fin.ext
  unfold slot
  simp only
  omega

theorem rd_eq_slot (buffer : Fin 3 → pkt) {i : Int} (h0 : 0 ≤ i) (h3 : i < 3) :
    rd buffer i = some (buffer (slot i)) := by
  simp [rd, arrIdx_eq_slot h0 h3]

theorem wr_eq_slot (buffer : Fin 3 → pkt) {i : Int} (v : pkt) (h0 : 0 ≤ i) (h3 : i < 3) :
    wr buffer i v = some (Function.update buffer (slot i) v) := by
  simp [wr, arrIdx_eq_slot h0 h3]

theorem A_input_mark_frame (packet : pkt) (st : AState) (i : Fin 3) :
    (A_input_mark packet st i).windowfirst = st.windowfirst ∧
    (A_input_mark packet st i).windowlast = st.windowlast ∧
    (A_input_mark packet st i).windowcount = st.windowcount ∧
    (A_input_mark packet st i).A_nextseqnum = st.A_nextseqnum ∧
    (A_input_mark packet st i).window_full = st.window_full ∧
    (A_input_mark packet st i).new_ACKs = st.new_ACKs ∧
    (A_input_mark packet st i).packets_resent = st.packets_resent ∧
    (A_input_mark packet st i).buffer =
      Function.update st.buffer i (markSlot packet (st.buffer i)) := by
  unfold A_input_mark markSlot
  split_ifs <;> simp_all

/-- The `for` loop of `A_input` applies `markSlot` to every slot and leaves the window
variables alone. -/
theorem A_input_marks (packet : pkt) (st : AState) :
    ((List.finRange 3).foldl (A_input_mark packet) st).windowfirst = st.windowfirst ∧
    ((List.finRange 3).foldl (A_input_mark packet) st).windowlast = st.windowlast ∧
    ((List.finRange 3).foldl (A_input_mark packet) st).windowcount = st.windowcount ∧
    ((List.finRange 3).foldl (A_input_mark packet) st).A_nextseqnum = st.A_nextseqnum ∧
    ((List.finRange 3).foldl (A_input_mark packet) st).window_full = st.window_full ∧
    ((List.finRange 3).foldl (A_input_mark packet) st).new_ACKs = st.new_ACKs ∧
    ((List.finRange 3).foldl (A_input_mark packet) st).packets_resent = st.packets_resent ∧
    ∀ k, ((List.finRange 3).foldl (A_input_mark packet) st).buffer k =
      markSlot packet (st.buffer k) := by
  have h3 : List.finRange 3 = [0, 1, 2] := by decide
  simp only [h3, List.foldl_cons, List.foldl_nil]
  obtain ⟨a0, b0, c0, d0, e0, f0, g0, i0⟩ := A_input_mark_frame packet st 0
  obtain ⟨a1, b1, c1, d1, e1, f1, g1, i1⟩ :=
    A_input_mark_frame packet (A_input_mark packet st 0) 1
  obtain ⟨a2, b2, c2, d2, e2, f2, g2, i2⟩ :=
    A_input_mark_frame packet (A_input_mark packet (A_input_mark packet st 0) 1) 2
  refine ⟨by rw [a2, a1, a0], by rw [b2, b1, b0], by rw [c2, c1, c0], by rw [d2, d1, d0],
    by rw [e2, e1, e0], by rw [f2, f1, f0], by rw [g2, g1, g0], ?_⟩
  intro k
  rw [i2, i1, i0]
  fin_cases k <;> simp [Function.update]

/-- The `while` loop of `A_input` returns when `windowfirst` is a valid index and the
fuel covers `windowcount`; it changes `windowfirst`, `windowcount` and `new_ACKs` only,
and `windowcount` does not grow and does not become negative. -/
theorem A_input_slide_returns (TRACE : Int) (fuel : Nat) (st : AState) (ev : List Event)
    (h0 : 0 ≤ st.windowfirst) (h3 : st.windowfirst < 3) (hf : st.windowcount ≤ fuel) :
    ∃ (w c a : Int) (ev' : List Event),
      A_input_slide TRACE fuel st ev =
        some ({ st with windowfirst := w, windowcount := c, new_ACKs := a }, ev') ∧
      0 ≤ w ∧ w < 3 ∧ c ≤ st.windowcount ∧ (0 ≤ st.windowcount → 0 ≤ c) := by
  induction fuel generalizing st ev with
  | zero =>
    unfold A_input_slide
    rw [rd_eq_slot _ h0 h3]
    simp only
    have : ¬ st.windowcount > 0 := by simpa using hf
    rw [if_neg (fun h => this h.2)]
    exact ⟨st.windowfirst, st.windowcount, st.new_ACKs, ev, rfl, h0, h3, le_refl _, id⟩
  | succ n ih =>
    unfold A_input_slide
    rw [rd_eq_slot _ h0 h3]
    simp only
    split
    · rename_i hc
      have hw : 0 ≤ (if TRACE > 0 then cmod (st.windowfirst + 1) WINDOWSIZE else st.windowfirst) ∧
          (if TRACE > 0 then cmod (st.windowfirst + 1) WINDOWSIZE else st.windowfirst) < 3 := by
        split
        · rw [cmod_of_nonneg (by omega)]; unfold WINDOWSIZE; omega
        · exact ⟨h0, h3⟩
      obtain ⟨w, c, a, ev', hr, hw0, hw3, hc1, hc2⟩ := ih
        { st with
            windowfirst :=
              if TRACE > 0 then cmod (st.windowfirst + 1) WINDOWSIZE else st.windowfirst
            windowcount := st.windowcount - 1
            new_ACKs := st.new_ACKs + 1 }
        (ev ++ [Event.stoptimer Entity.A, Event.starttimer Entity.A RTT]) hw.1 hw.2
        (by simp only; push_cast at hf; omega)
      refine ⟨w, c, a, ev', hr, hw0, hw3, ?_, ?_⟩
      · simp only at hc1; omega
      · intro _; exact hc2 (by simp only; omega)
    · exact ⟨st.windowfirst, st.windowcount, st.new_ACKs, ev, rfl, h0, h3, le_refl _, id⟩

/-- The `for` loop of `A_timerinterrupt` returns when `windowfirst` is not negative, and
changes `packets_resent` only. -/
theorem A_timerinterrupt_resend_returns (l : List Nat) (st : AState) (ev : List Event)
    (h0 : 0 ≤ st.windowfirst) :
    ∃ (r : Int) (ev' : List Event),
      A_timerinterrupt_resend l st ev = some ({ st with packets_resent := r }, ev') := by
  induction l generalizing st ev with
  | nil => exact ⟨st.packets_resent, ev, rfl⟩
  | cons i l ih =>
    unfold A_timerinterrupt_resend
    have hi : cmod (st.windowfirst + i) WINDOWSIZE = (st.windowfirst + i) % 3 :=
      cmod_of_nonneg (by omega)
    rw [hi, rd_eq_slot _ (by omega) (by omega)]
    simp only
    split
    · obtain ⟨r, ev', h⟩ := ih { st with packets_resent := st.packets_resent + 1 }
        (ev ++ [Event.tolayer3 Entity.A (st.buffer (slot ((st.windowfirst + i) % 3)))]) h0
      exact ⟨r, ev', h⟩
    · exact ih st ev h0

/-- Every handler call returns from a state with the index variables in range, and
keeps them in range. -/
theorem IndexInv_run (TRACE : Int) (st : AState) (c : ACall) (h : IndexInv st) :
    ∃ (st1 : AState) (ev : List Event), c.run TRACE st = some (st1, ev) ∧ IndexInv st1 := by
  obtain ⟨wf0, wf3, wl0, wc0, wc3⟩ := h
  cases c with
  | output message =>
    simp only [ACall.run, A_output]
    have hw : cmod (st.windowlast + 1) WINDOWSIZE = (st.windowlast + 1) % 3 :=
      cmod_of_nonneg (by omega)
    split
    · rename_i hc
      unfold WINDOWSIZE at hc
      rw [hw, wr_eq_slot _ _ (by omega) (by omega)]
      exact ⟨_, _, rfl, ⟨wf0, wf3, by simp only; omega, by simp only; omega,
        by simp only; omega⟩⟩
    · exact ⟨_, _, rfl, ⟨wf0, wf3, wl0, wc0, wc3⟩⟩
  | input packet =>
    simp only [ACall.run, A_input]
    split
    · obtain ⟨a, b, c, -, -, -, -, -⟩ := A_input_marks packet { st with newACK := false }
      simp only at a b c
      obtain ⟨w, c', n, ev', hr, hw0, hw3, hc1, hc2⟩ := A_input_slide_returns TRACE
        ((List.finRange 3).foldl (A_input_mark packet) { st with newACK := false }).windowcount.toNat
        ((List.finRange 3).foldl (A_input_mark packet) { st with newACK := false }) []
        (by rw [a]; exact wf0) (by rw [a]; exact wf3) (by rw [c]; omega)
      rw [hr]
      refine ⟨_, _, rfl, ⟨hw0, hw3, ?_, ?_, ?_⟩⟩
      · simp only; rw [b]; exact wl0
      · simp only; exact hc2 (by rw [c]; exact wc0)
      · simp only; rw [c] at hc1; omega
    · exact ⟨_, _, rfl, ⟨wf0, wf3, wl0, wc0, wc3⟩⟩
  | timerinterrupt =>
    simp only [ACall.run, A_timerinterrupt]
    obtain ⟨r, ev', h⟩ := A_timerinterrupt_resend_returns
      (List.range st.windowcount.toNat) st [] wf0
    rw [h]
    exact ⟨_, _, rfl, ⟨wf0, wf3, wl0, wc0, wc3⟩⟩

theorem IndexInv_init : IndexInv A_init :=
  ⟨by decide, by decide, by decide, by decide, by decide⟩

theorem AReachable.indexInv {TRACE : Int} {st : AState} (h : AReachable TRACE st) :
    IndexInv st := by
  induction h with
  | init => exact IndexInv_init
  | step st st1 c ev _ hrun ih =>
    obtain ⟨st1', ev', hr, hi⟩ := IndexInv_run TRACE st c ih
    rw [hr] at hrun
    cases hrun
    exact hi

theorem slot_emod (x : Int) : slot (x % 3) = slot x := by
  rw [slot_eq_iff]; omega

theorem update_slot_eq (f : Fin 3 → pkt) (v : pkt) {x y : Int} (h : x % 3 = y % 3) :
    Function.update f (slot x) v (slot y) = v := by
  rw [(slot_eq_iff x y).2 h, Function.update_same]

theorem update_slot_ne (f : Fin 3 → pkt) (v : pkt) {x y : Int} (h : x % 3 ≠ y % 3) :
    Function.update f (slot x) v (slot y) = f (slot y) := by
  rw [Function.update_noteq]
  exact fun e => h ((slot_eq_iff y x).1 e).symm

/-- `A_output` with room in the window and `windowlast >= -1`, written out. -/
theorem A_output_eq (st : AState) (message : msg)
    (hc : st.windowcount < 3) (hl0 : -1 ≤ st.windowlast) :
    A_output st message =
      some ({ st with
                buffer := Function.update st.buffer (slot (st.windowlast + 1))
                  (mkPkt st.A_nextseqnum NOTINUSE message.data)
                windowlast := (st.windowlast + 1) % 3
                windowcount := st.windowcount + 1
                A_nextseqnum := cmod (st.A_nextseqnum + 1) SEQSPACE },
            Event.tolayer3 Entity.A (mkPkt st.A_nextseqnum NOTINUSE message.data) ::
              (if st.windowcount = 0 then [Event.starttimer Entity.A RTT] else [])) := by
  have hw : cmod (st.windowlast + 1) WINDOWSIZE = (st.windowlast + 1) % 3 :=
    cmod_of_nonneg (by omega)
  have hc' : st.windowcount < WINDOWSIZE := hc
  simp only [A_output, if_pos hc', hw]
  rw [wr_eq_slot _ _ (by omega) (by omega), slot_emod]
  have : (st.windowcount + 1 = 1) ↔ st.windowcount = 0 := by omega
  simp only [this]
  rfl

/-- The `while` loop of `A_input` for `TRACE > 0`: it moves the base past `n` slots, all
acknowledged, and stops at the end of the window or at a slot that is not
acknowledged. -/
theorem A_input_slide_spec (TRACE : Int) (hT : 0 < TRACE) (fuel : Nat) (st : AState)
    (ev : List Event) (h0 : 0 ≤ st.windowfirst) (h3 : st.windowfirst < 3)
    (hc0 : 0 ≤ st.windowcount) (hf : st.windowcount ≤ fuel) :
    ∃ (n : Int) (ev' : List Event), 0 ≤ n ∧ n ≤ st.windowcount ∧
      A_input_slide TRACE fuel st ev =
        some ({ st with
                  windowfirst := (st.windowfirst + n) % 3
                  windowcount := st.windowcount - n
                  new_ACKs := st.new_ACKs + n }, ev') ∧
      (∀ i : Int, 0 ≤ i → i < n →
        (st.buffer (slot (st.windowfirst + i))).seqnum =
          (st.buffer (slot (st.windowfirst + i))).acknum) ∧
      (n < st.windowcount →
        (st.buffer (slot (st.windowfirst + n))).seqnum ≠
          (st.buffer (slot (st.windowfirst + n))).acknum) := by
  induction fuel generalizing st ev with
  | zero =>
    have hz : st.windowcount = 0 := by
      have : st.windowcount ≤ 0 := by simpa using hf
      omega
    refine ⟨0, ev, le_refl _, hc0, ?_, fun i h1 h2 => absurd h2 (by omega),
      fun h => absurd h (by omega)⟩
    unfold A_input_slide
    rw [rd_eq_slot _ h0 h3]
    simp only
    rw [if_neg (fun h => by omega)]
    congr 2
    obtain ⟨b, wf, wl, wc, ns, na, wfull, ta, nack, pr⟩ := st
    simp only [AState.mk.injEq] at *
    refine ⟨trivial, ?_, trivial, ?_, trivial, trivial, trivial, trivial, ?_, trivial⟩ <;> omega
  | succ m ih =>
    unfold A_input_slide
    rw [rd_eq_slot _ h0 h3]
    simp only
    split
    · rename_i hc
      have hw : cmod (st.windowfirst + 1) WINDOWSIZE = (st.windowfirst + 1) % 3 :=
        cmod_of_nonneg (by omega)
      rw [hw]
      obtain ⟨n, ev', hn0, hn, hr, hall, hstop⟩ := ih
        { st with
            windowfirst := (st.windowfirst + 1) % 3
            windowcount := st.windowcount - 1
            new_ACKs := st.new_ACKs + 1 }
        (ev ++ [Event.stoptimer Entity.A, Event.starttimer Entity.A RTT])
        (by simp only; omega) (by simp only; omega) (by simp only; omega)
        (by simp only; push_cast at hf; omega)
      simp only at hn hr hall hstop
      refine ⟨n + 1, ev', by omega, by omega, ?_, ?_, ?_⟩
      · rw [hr]
        congr 2
        obtain ⟨b, wf, wl, wc, ns, na, wfull, ta, nack, pr⟩ := st
        simp only [AState.mk.injEq]
        refine ⟨trivial, ?_, trivial, ?_, trivial, trivial, trivial, trivial, ?_, trivial⟩ <;>
          omega
      · intro i hi0 hi
        rcases eq_or_lt_of_le hi0 with h | h
        · subst h
          simpa using hc.1
        · have := hall (i - 1) (by omega) (by omega)
          have e : slot ((st.windowfirst + 1) % 3 + (i - 1)) = slot (st.windowfirst + i) := by
            rw [slot_eq_iff]; omega
          rwa [e] at this
      · intro h
        have := hstop (by omega)
        have e : slot ((st.windowfirst + 1) % 3 + n) = slot (st.windowfirst + (n + 1)) := by
          rw [slot_eq_iff]; omega
        rwa [e] at this
    · rename_i hc
      refine ⟨0, ev, le_refl _, hc0, ?_, fun i h1 h2 => absurd h2 (by omega), ?_⟩
      · congr 2
        obtain ⟨b, wf, wl, wc, ns, na, wfull, ta, nack, pr⟩ := st
        simp only [AState.mk.injEq] at *
        refine ⟨trivial, ?_, trivial, ?_, trivial, trivial, trivial, trivial, ?_, trivial⟩ <;>
          omega
      · intro h
        simp only [add_zero]
        exact fun e => hc ⟨e, by omega⟩

theorem markSlot_seqnum (p b : pkt) : (markSlot p b).seqnum = b.seqnum := by
  unfold markSlot; split <;> rfl

theorem markSlot_of_acknum_ne (p b : pkt) (h : b.acknum ≠ NOTINUSE) : markSlot p b = b := by
  unfold markSlot; rw [if_neg (fun c => h c.2)]

theorem markSlot_of_seqnum_ne (p b : pkt) (h : b.seqnum ≠ p.acknum) : markSlot p b = b := by
  unfold markSlot; rw [if_neg (fun c => h c.1)]

theorem markSlot_acknum (p b : pkt) (h : b.acknum = NOTINUSE ∨ b.acknum = b.seqnum) :
    (markSlot p b).acknum = NOTINUSE ∨ (markSlot p b).acknum = (markSlot p b).seqnum := by
  unfold markSlot
  split
  · rename_i c; right; exact c.1.symm
  · exact h

theorem markSlot_hit (p b : pkt) (hs : b.seqnum = p.acknum)
    (h : b.acknum = NOTINUSE ∨ b.acknum = b.seqnum) : (markSlot p b).acknum = p.acknum := by
  unfold markSlot
  split
  · rfl
  · rename_i c
    rcases h with h | h
    · exact absurd ⟨hs, h⟩ c
    · rw [h, hs]

/-- `A_input` on an uncorrupted packet for `TRACE > 0`, with the index variables in
range: the marks are set by `markSlot`, then the base moves past `n` acknowledged slots
and stops at the end of the window or at a slot that is not acknowledged. -/
theorem A_input_spec (TRACE : Int) (hT : 0 < TRACE) (st : AState) (packet : pkt)
    (hp : IsCorrupted packet = false) (h0 : 0 ≤ st.windowfirst) (h3 : st.windowfirst < 3)
    (hc0 : 0 ≤ st.windowcount) :
    ∃ (n : Int) (st' : AState) (ev : List Event),
      A_input TRACE st packet = some (st', ev) ∧ 0 ≤ n ∧ n ≤ st.windowcount ∧
      st'.windowfirst = (st.windowfirst + n) % 3 ∧
      st'.windowcount = st.windowcount - n ∧
      st'.windowlast = st.windowlast ∧ st'.A_nextseqnum = st.A_nextseqnum ∧
      st'.window_full = st.window_full ∧
      (∀ k, st'.buffer k = markSlot packet (st.buffer k)) ∧
      (∀ i : Int, 0 ≤ i → i < n →
        (st'.buffer (slot (st.windowfirst + i))).seqnum =
          (st'.buffer (slot (st.windowfirst + i))).acknum) ∧
      (n < st.windowcount →
        (st'.buffer (slot (st.windowfirst + n))).seqnum ≠
          (st'.buffer (slot (st.windowfirst + n))).acknum) := by
  have hm := A_input_marks packet { st with newACK := false }
  simp only [A_input, hp, Bool.not_false, if_true]
  generalize (List.finRange 3).foldl (A_input_mark packet) { st with newACK := false } = st1
    at hm ⊢
  obtain ⟨a, b, c, d, e, -, -, hb⟩ := hm
  simp only at a b c d e hb
  obtain ⟨n, ev', hn0, hn, hr, hall, hstop⟩ := A_input_slide_spec TRACE hT
    st1.windowcount.toNat st1 [] (by rw [a]; exact h0) (by rw [a]; exact h3)
    (by rw [c]; exact hc0) (by rw [c]; omega)
  simp only [a, c] at hall hstop hn
  simp only [hr]
  exact ⟨n, _, _, rfl, hn0, hn, by simp only [a], by simp only [c], b, d, e, hb, hall,
    hstop⟩

theorem mkPkt_seqnum (s a : Int) (d : Fin 20 → Int) : (mkPkt s a d).seqnum = s := rfl

theorem mkPkt_acknum (s a : Int) (d : Fin 20 → Int) : (mkPkt s a d).acknum = a := rfl

theorem mkPkt_payload (s a : Int) (d : Fin 20 → Int) : (mkPkt s a d).payload = d := rfl

theorem IsCorrupted_mkPkt (s a : Int) (d : Fin 20 → Int) : IsCorrupted (mkPkt s a d) = false :=
  IsCorrupted_with_ComputeChecksum _

theorem SenderInv_init : SenderInv A_init where
  wf0 := by decide
  wf3 := by decide
  wc0 := by decide
  wc3 := by decide
  ns0 := by decide
  ns8 := by decide
  wl0 := by decide
  wl := by decide
  seq := fun i h0 h => absurd h (by simp only [A_init]; omega)
  ack := fun i h0 h => absurd h (by simp only [A_init]; omega)
  base := fun h => absurd h (by decide)
  stale := fun i _ _ => by simp [A_init, zeroPkt, NOTINUSE]

theorem SenderInv_output (st st1 : AState) (message : msg) (ev : List Event)
    (h : SenderInv st) (hr : A_output st message = some (st1, ev)) : SenderInv st1 := by
  by_cases hc : st.windowcount < 3
  · rw [A_output_eq st message hc h.wl0] at hr
    cases hr
    have hwl := h.wl
    have hns : cmod (st.A_nextseqnum + 1) SEQSPACE = (st.A_nextseqnum + 1) % 8 :=
      cmod_of_nonneg (by have := h.ns0; omega)
    have hwc0 := h.wc0
    have hns0 := h.ns0
    have hns8 := h.ns8
    refine ⟨h.wf0, h.wf3, ?_, ?_, ?_, ?_, ?_, ?_, ?_, ?_, ?_, ?_⟩ <;> simp only [hns]
    · omega
    · omega
    · omega
    · omega
    · have := h.wl0; omega
    · omega
    · intro i hi0 hi
      by_cases e : i = st.windowcount
      · subst e
        rw [update_slot_eq _ _ (by omega), mkPkt_seqnum]
        omega
      · rw [update_slot_ne _ _ (by omega), h.seq i hi0 (by omega)]
        omega
    · intro i hi0 hi
      by_cases e : i = st.windowcount
      · subst e
        rw [update_slot_eq _ _ (by omega), mkPkt_acknum]
        exact Or.inl rfl
      · rw [update_slot_ne _ _ (by omega)]
        exact h.ack i hi0 (by omega)
    · intro _
      by_cases e : st.windowcount = 0
      · rw [update_slot_eq _ _ (by omega), mkPkt_acknum]
      · rw [update_slot_ne _ _ (by omega)]
        exact h.base (by omega)
    · intro i hi hi3
      rw [update_slot_ne _ _ (by omega)]
      exact h.stale i (by omega) hi3
  · have hc' : ¬ st.windowcount < WINDOWSIZE := hc
    simp only [A_output, if_neg hc'] at hr
    cases hr
    exact ⟨h.wf0, h.wf3, h.wc0, h.wc3, h.ns0, h.ns8, h.wl0, h.wl, h.seq, h.ack, h.base,
      h.stale⟩

theorem SenderInv_input (TRACE : Int) (hT : 0 < TRACE) (st st1 : AState) (packet : pkt)
    (ev : List Event) (h : SenderInv st) (hr : A_input TRACE st packet = some (st1, ev)) :
    SenderInv st1 := by
  cases hp : IsCorrupted packet with
  | true =>
    simp only [A_input, hp, Bool.not_true] at hr
    cases hr
    exact h
  | false =>
    obtain ⟨n, st', ev', hr', hn0, hn, hwf, hwc, hwl, hns, -, hb, hall, hstop⟩ :=
      A_input_spec TRACE hT st packet hp h.wf0 h.wf3 h.wc0
    rw [hr'] at hr
    cases hr
    have hwf0 := h.wf0
    have hwf3 := h.wf3
    have hwc0 := h.wc0
    have hwc3 := h.wc3
    have hwl' := h.wl
    have key : ∀ i : Int, slot (st1.windowfirst + i) = slot (st.windowfirst + (n + i)) := by
      intro i; rw [slot_eq_iff, hwf]; omega
    have hack : ∀ i : Int, 0 ≤ i → i < st.windowcount →
        (st1.buffer (slot (st.windowfirst + i))).acknum = NOTINUSE ∨
        (st1.buffer (slot (st.windowfirst + i))).acknum =
          (st1.buffer (slot (st.windowfirst + i))).seqnum := by
      intro i hi0 hi
      rw [hb]
      exact markSlot_acknum _ _ (h.ack i hi0 hi)
    refine ⟨by omega, by omega, by omega, by omega, by rw [hns]; exact h.ns0,
      by rw [hns]; exact h.ns8, by rw [hwl]; exact h.wl0, by rw [hwl, hwf, hwc]; omega,
      ?_, ?_, ?_, ?_⟩
    · intro i hi0 hi
      rw [key, hb, markSlot_seqnum, h.seq (n + i) (by omega) (by omega), hns, hwc]
      congr 1
      omega
    · intro i hi0 hi
      rw [key]
      exact hack (n + i) (by omega) (by omega)
    · intro hpos
      have e : slot st1.windowfirst = slot (st.windowfirst + n) := by
        rw [slot_eq_iff, hwf]; omega
      rw [e]
      rcases hack n hn0 (by omega) with c | c
      · exact c
      · exact absurd c.symm (hstop (by omega))
    · intro i hi hi3
      rw [key]
      by_cases o : n + i < 3
      · rw [hb, markSlot_of_acknum_ne _ _ (h.stale (n + i) (by omega) o)]
        exact h.stale (n + i) (by omega) o
      · have e : slot (st.windowfirst + (n + i)) = slot (st.windowfirst + (n + i - 3)) := by
          rw [slot_eq_iff]; omega
        rw [e, ← hall (n + i - 3) (by omega) (by omega), hb, markSlot_seqnum,
          h.seq (n + i - 3) (by omega) (by omega)]
        unfold NOTINUSE
        omega

theorem SenderInv_timerinterrupt (st st1 : AState) (ev : List Event)
    (h : SenderInv st) (hr : A_timerinterrupt st = some (st1, ev)) : SenderInv st1 := by
  obtain ⟨r, ev', hres⟩ := A_timerinterrupt_resend_returns
    (List.range st.windowcount.toNat) st [] h.wf0
  simp only [A_timerinterrupt, hres] at hr
  cases hr
  exact ⟨h.wf0, h.wf3, h.wc0, h.wc3, h.ns0, h.ns8, h.wl0, h.wl, h.seq, h.ack, h.base,
    h.stale⟩

/-- For `TRACE > 0` every reachable sender state has the window shape `SenderInv`. -/
theorem AReachable.senderInv {TRACE : Int} (hT : 0 < TRACE) {st : AState}
    (h : AReachable TRACE st) : SenderInv st := by
  induction h with
  | init => exact SenderInv_init
  | step st st1 c ev _ hrun ih =>
    cases c with
    | output message => exact SenderInv_output st st1 message ev ih hrun
    | input packet => exact SenderInv_input TRACE hT st st1 packet ev ih hrun
    | timerinterrupt => exact SenderInv_timerinterrupt st st1 ev ih hrun

theorem AReachable_of_calls (TRACE : Int) (cs : List ACall) (st st1 : AState)
    (ev : List Event) (h : AReachable TRACE st) (hr : A_calls TRACE st cs = some (st1, ev)) :
    AReachable TRACE st1 := by
  induction cs generalizing st ev with
  | nil =>
    simp only [A_calls] at hr
    cases hr
    exact h
  | cons c cs ih =>
    simp only [A_calls] at hr
    split at hr
    · cases hr
    · rename_i st2 ev2 hc
      split at hr
      · cases hr
      · rename_i st3 ev3 hcs
        cases hr
        exact ih st2 ev3 (AReachable.step st st2 c ev2 h hc) hcs

theorem threeSent_reachable : AReachable 1 threeSent :=
  AReachable_of_calls 1
    [ACall.output ⟨fun _ => 97⟩, ACall.output ⟨fun _ => 98⟩, ACall.output ⟨fun _ => 99⟩]
    A_init threeSent _ AReachable.init rfl

/-- C9: in every sender state reachable from `A_init` by `A_output`, `A_input` and
`A_timerinterrupt` calls, for any messages, any packets and any trace level,
`0 <= windowcount <= WINDOWSIZE`; moreover each of the three handlers returns from such
a state, so the reachable states are all the states the calls lead to. -/
theorem windowcount_bounded (TRACE : Int) (st : AState) (h : AReachable TRACE st) :
    (0 ≤ st.windowcount ∧ st.windowcount ≤ WINDOWSIZE) ∧
    ∀ c : ACall, ∃ (st1 : AState) (ev : List Event), c.run TRACE st = some (st1, ev) := by
  have hi := h.indexInv
  refine ⟨⟨hi.wc0, hi.wc3⟩, fun c => ?_⟩
  obtain ⟨st1, ev, hr, -⟩ := IndexInv_run TRACE st c hi
  exact ⟨st1, ev, hr⟩

theorem windowcount_bounded_witness :
    AReachable 1 threeSent ∧
    ((0 ≤ threeSent.windowcount ∧ threeSent.windowcount ≤ WINDOWSIZE) ∧
      ∀ c : ACall, ∃ (st1 : AState) (ev : List Event), c.run 1 threeSent = some (st1, ev)) :=
  ⟨threeSent_reachable, windowcount_bounded 1 threeSent threeSent_reachable⟩

/-- C10 as stated fails: after `A_init` and three `A_output` calls the window holds the
sequence numbers 0, 1, 2; the uncorrupted ACK with `acknum` 1 names a packet of the
window, and after `A_input` (`TRACE = 1`) the window still has its three packets and its
base packet is the one with sequence number 0, still marked `NOTINUSE`: the packet
before 1 does not count as acknowledged and the window has not slid. -/
theorem ack_is_not_cumulative :
    A_calls 1 A_init
        [ACall.output ⟨fun _ => 97⟩, ACall.output ⟨fun _ => 98⟩, ACall.output ⟨fun _ => 99⟩] =
      some (threeSent,
        [Event.tolayer3 Entity.A (mkPkt 0 NOTINUSE fun _ => 97), Event.starttimer Entity.A RTT,
         Event.tolayer3 Entity.A (mkPkt 1 NOTINUSE fun _ => 98),
         Event.tolayer3 Entity.A (mkPkt 2 NOTINUSE fun _ => 99)]) ∧
    IsCorrupted (mkPkt NOTINUSE 1 fun _ => 48) = false ∧
    (threeSent.buffer (slot (threeSent.windowfirst + 1))).seqnum =
      (mkPkt NOTINUSE 1 fun _ => 48).acknum ∧
    (A_input 1 threeSent (mkPkt NOTINUSE 1 fun _ => 48)).map
        (fun r => (r.1.windowfirst, r.1.windowcount, (r.1.buffer (slot r.1.windowfirst)).seqnum,
          (r.1.buffer (slot r.1.windowfirst)).acknum)) =
      some (0, 3, 0, NOTINUSE) := by
  set_option maxRecDepth 100000 in decide

/-- C10, amended: for `TRACE > 0`, a reachable sender state and an uncorrupted ACK whose
`acknum` is the sequence number of the packet `j` places behind the window base,
`A_input` returns with that packet marked acknowledged and the marks of the other
packets of the window as they were; the base has moved past `n` packets, all of them
acknowledged, with `n > 0` exactly when the acknowledged packet was the base packet
(`j = 0`), and afterwards the window is empty or its base packet is not
acknowledged. -/
theorem A_input_ack_is_selective (TRACE : Int) (hT : 0 < TRACE) (st : AState)
    (hr : AReachable TRACE st) (packet : pkt) (hp : IsCorrupted packet = false)
    (j : Int) (hj0 : 0 ≤ j) (hj : j < st.windowcount)
    (hs : (st.buffer (slot (st.windowfirst + j))).seqnum = packet.acknum) :
    ∃ (st' : AState) (ev : List Event) (n : Int),
      A_input TRACE st packet = some (st', ev) ∧
      0 ≤ n ∧ n ≤ st.windowcount ∧
      st'.windowfirst = (st.windowfirst + n) % WINDOWSIZE ∧
      st'.windowcount = st.windowcount - n ∧
      (0 < n ↔ j = 0) ∧
      (st'.buffer (slot (st.windowfirst + j))).acknum = packet.acknum ∧
      (∀ i : Int, 0 ≤ i → i < st.windowcount → i ≠ j →
        st'.buffer (slot (st.windowfirst + i)) = st.buffer (slot (st.windowfirst + i))) ∧
      (∀ i : Int, 0 ≤ i → i < n →
        (st'.buffer (slot (st.windowfirst + i))).acknum =
          (st'.buffer (slot (st.windowfirst + i))).seqnum) ∧
      (st'.windowcount = 0 ∨ (st'.buffer (slot st'.windowfirst)).acknum = NOTINUSE) := by
  have h := hr.senderInv hT
  obtain ⟨n, st', ev, hrun, hn0, hn, hwf, hwc, hwl, hns, -, hb, hall, hstop⟩ :=
    A_input_spec TRACE hT st packet hp h.wf0 h.wf3 h.wc0
  have h' : SenderInv st' := SenderInv_input TRACE hT st st' packet ev h hrun
  have hwc3 := h.wc3
  have hseqj := h.seq j hj0 hj
  have hns0 := h.ns0
  have hns8 := h.ns8
  have hother : ∀ i : Int, 0 ≤ i → i < st.windowcount → i ≠ j →
      st'.buffer (slot (st.windowfirst + i)) = st.buffer (slot (st.windowfirst + i)) := by
    intro i hi0 hi hij
    rw [hb]
    apply markSlot_of_seqnum_ne
    rw [← hs, h.seq i hi0 hi, hseqj]
    omega
  have hmark : (st'.buffer (slot (st.windowfirst + j))).acknum = packet.acknum := by
    rw [hb]
    exact markSlot_hit _ _ hs (h.ack j hj0 hj)
  refine ⟨st', ev, n, hrun, hn0, hn, hwf, hwc, ?_, hmark, hother, ?_, ?_⟩
  · constructor
    · intro hpos
      by_contra hj'
      have e0 := hall 0 (le_refl _) hpos
      rw [hother 0 (le_refl _) (by omega) (fun e => hj' e.symm)] at e0
      have hbase := h.base (by omega)
      have hseq0 := h.seq 0 (le_refl _) (by omega)
      simp only [add_zero] at e0 hseq0
      rw [hbase, hseq0] at e0
      unfold NOTINUSE at e0
      omega
    · intro hj'
      subst hj'
      by_contra hpos
      have hn' : n = 0 := by omega
      subst hn'
      have := hstop (by omega)
      rw [hmark, hb, markSlot_seqnum, hs] at this
      exact this rfl
  · intro i hi0 hi
    exact (hall i hi0 hi).symm
  · by_cases hz : st'.windowcount = 0
    · exact Or.inl hz
    · exact Or.inr (h'.base (by have := h'.wc0; omega))

theorem A_input_ack_is_selective_witness :
    (AReachable 1 threeSent ∧ IsCorrupted (mkPkt NOTINUSE 1 fun _ => 48) = false ∧
      (threeSent.buffer (slot (threeSent.windowfirst + 1))).seqnum =
        (mkPkt NOTINUSE 1 fun _ => 48).acknum) ∧
    ∃ (st' : AState) (ev : List Event) (n : Int),
      A_input 1 threeSent (mkPkt NOTINUSE 1 fun _ => 48) = some (st', ev) ∧
      0 ≤ n ∧ n ≤ threeSent.windowcount ∧
      st'.windowfirst = (threeSent.windowfirst + n) % WINDOWSIZE ∧
      st'.windowcount = threeSent.windowcount - n ∧
      (0 < n ↔ (1 : Int) = 0) ∧
      (st'.buffer (slot (threeSent.windowfirst + 1))).acknum =
        (mkPkt NOTINUSE 1 fun _ => 48).acknum ∧
      (∀ i : Int, 0 ≤ i → i < threeSent.windowcount → i ≠ 1 →
        st'.buffer (slot (threeSent.windowfirst + i)) =
          threeSent.buffer (slot (threeSent.windowfirst + i))) ∧
      (∀ i : Int, 0 ≤ i → i < n →
        (st'.buffer (slot (threeSent.windowfirst + i))).acknum =
          (st'.buffer (slot (threeSent.windowfirst + i))).seqnum) ∧
      (st'.windowcount = 0 ∨ (st'.buffer (slot st'.windowfirst)).acknum = NOTINUSE) :=
  ⟨⟨threeSent_reachable, by set_option maxRecDepth 100000 in decide, by decide⟩,
   A_input_ack_is_selective 1 (by decide) threeSent threeSent_reachable
     (mkPkt NOTINUSE 1 fun _ => 48) (by set_option maxRecDepth 100000 in decide) 1
     (by decide) (by decide) (by decide)⟩

/-- `B_input` on the expected packet when slot 0 does not hold it yet and slot 1 is
empty: the packet is stored in slot 0 and delivered, `expectedseqnum` moves on by one,
and the packet is acknowledged. -/
theorem B_input_in_order (b : BState) (packet : pkt) (hp : IsCorrupted packet = false)
    (he0 : 0 ≤ b.expectedseqnum) (he8 : b.expectedseqnum < 8)
    (hs : packet.seqnum = b.expectedseqnum)
    (h0 : (b.B_buffer 0).seqnum ≠ b.expectedseqnum)
    (h1 : (b.B_buffer 1).seqnum = NOTINUSE) :
    B_input b packet =
      some ({ b with
                expectedseqnum := (b.expectedseqnum + 1) % 8
                B_windowfirst := 1
                B_index := 0
                B_buffer := Function.update b.B_buffer 0 packet
                packets_received := b.packets_received + 1 },
            [Event.tolayer5 Entity.B packet.payload,
             Event.tolayer3 Entity.B (mkPkt NOTINUSE packet.seqnum fun _ => 48)]) := by
  have hlast : cmod (b.expectedseqnum + WINDOWSIZE - 1) SEQSPACE =
      (b.expectedseqnum + 2) % 8 := by
    rw [cmod_of_nonneg (by unfold WINDOWSIZE; omega)]
    unfold WINDOWSIZE SEQSPACE
    omega
  have hidx : cmod (cmod (packet.seqnum - b.expectedseqnum + SEQSPACE) SEQSPACE) WINDOWSIZE =
      0 := by
    rw [hs, sub_self]
    decide
  have hnext : cmod (b.expectedseqnum + 1) SEQSPACE = (b.expectedseqnum + 1) % 8 :=
    cmod_of_nonneg (by omega)
  have hwin : (b.expectedseqnum < (b.expectedseqnum + 2) % 8 ∧
        (packet.seqnum ≥ b.expectedseqnum ∧ packet.seqnum ≤ (b.expectedseqnum + 2) % 8)) ∨
      (b.expectedseqnum > (b.expectedseqnum + 2) % 8 ∧
        (packet.seqnum ≥ b.expectedseqnum ∨ packet.seqnum ≤ (b.expectedseqnum + 2) % 8)) := by
    omega
  have hne : (b.B_buffer 0).seqnum ≠ packet.seqnum := by rw [hs]; exact h0
  have hrd : rd b.B_buffer 0 = some (b.B_buffer 0) := rfl
  have hwr : wr b.B_buffer 0 packet = some (Function.update b.B_buffer 0 packet) := rfl
  have h1' : (b.B_buffer 1).seqnum ≠ (b.expectedseqnum + 1) % 8 := by
    rw [h1]; unfold NOTINUSE; omega
  simp only [B_input, hp, Bool.not_false, if_true, B_input_window, hlast, hwin, hidx, hrd,
    hwr, hne, ne_eq, not_false_eq_true]
  rw [B_input_deliver_succ 2 _ _ 0 (by rfl)]
  simp only [Function.update_same, hs, if_true, hnext]
  rw [B_input_deliver_succ 1 _ _ 1 (by rfl)]
  have hupd : Function.update b.B_buffer 0 packet 1 = b.B_buffer 1 :=
    Function.update_noteq (by decide) _ _
  simp only [hupd, h1', if_false]
  rfl

/-- The `while` loop of `A_input` when every slot is acknowledged: it runs until
`windowcount` is 0, for any trace level. -/
theorem A_input_slide_all_acked (TRACE : Int) (fuel : Nat) (st : AState) (ev : List Event)
    (h0 : 0 ≤ st.windowfirst) (h3 : st.windowfirst < 3)
    (hall : ∀ k, (st.buffer k).seqnum = (st.buffer k).acknum)
    (hc0 : 0 ≤ st.windowcount) (hf : st.windowcount ≤ fuel) :
    ∃ (w a : Int) (ev' : List Event),
      A_input_slide TRACE fuel st ev =
        some ({ st with windowfirst := w, windowcount := 0, new_ACKs := a }, ev') ∧
      0 ≤ w ∧ w < 3 := by
  induction fuel generalizing st ev with
  | zero =>
    have hz : st.windowcount = 0 := by
      have : st.windowcount ≤ 0 := by simpa using hf
      omega
    unfold A_input_slide
    rw [rd_eq_slot _ h0 h3]
    simp only
    rw [if_neg (fun h => by omega)]
    refine ⟨st.windowfirst, st.new_ACKs, ev, ?_, h0, h3⟩
    rw [← hz]
  | succ m ih =>
    unfold A_input_slide
    rw [rd_eq_slot _ h0 h3]
    simp only
    split
    · have hw : 0 ≤ (if TRACE > 0 then cmod (st.windowfirst + 1) WINDOWSIZE else st.windowfirst) ∧
          (if TRACE > 0 then cmod (st.windowfirst + 1) WINDOWSIZE else st.windowfirst) < 3 := by
        split
        · rw [cmod_of_nonneg (by omega)]; unfold WINDOWSIZE; omega
        · exact ⟨h0, h3⟩
      obtain ⟨w, a, ev', hr, hw0, hw3⟩ := ih
        { st with
            windowfirst :=
              if TRACE > 0 then cmod (st.windowfirst + 1) WINDOWSIZE else st.windowfirst
            windowcount := st.windowcount - 1
            new_ACKs := st.new_ACKs + 1 }
        (ev ++ [Event.stoptimer Entity.A, Event.starttimer Entity.A RTT]) hw.1 hw.2 hall
        (by simp only; omega) (by simp only; push_cast at hf; omega)
      exact ⟨w, a, ev', hr, hw0, hw3⟩
    · rename_i hc
      have hz : st.windowcount = 0 := by
        by_contra hne
        exact hc ⟨hall _, by omega⟩
      refine ⟨st.windowfirst, st.new_ACKs, ev, ?_, h0, h3⟩
      rw [← hz]

/-- `A_input` on an uncorrupted packet after which every slot is acknowledged empties the
window, for any trace level. -/
theorem A_input_all_acked (TRACE : Int) (st : AState) (packet : pkt)
    (hp : IsCorrupted packet = false) (h0 : 0 ≤ st.windowfirst) (h3 : st.windowfirst < 3)
    (hc0 : 0 ≤ st.windowcount)
    (hall : ∀ k, (markSlot packet (st.buffer k)).seqnum = (markSlot packet (st.buffer k)).acknum) :
    ∃ (st' : AState) (ev : List Event),
      A_input TRACE st packet = some (st', ev) ∧ st'.windowcount = 0 ∧
      0 ≤ st'.windowfirst ∧ st'.windowfirst < 3 ∧
      st'.windowlast = st.windowlast ∧ st'.A_nextseqnum = st.A_nextseqnum ∧
      st'.window_full = st.window_full ∧
      (∀ k, st'.buffer k = markSlot packet (st.buffer k)) := by
  have hm := A_input_marks packet { st with newACK := false }
  simp only [A_input, hp, Bool.not_false, if_true]
  generalize (List.finRange 3).foldl (A_input_mark packet) { st with newACK := false } = st1
    at hm ⊢
  obtain ⟨a, b, c, d, e, -, -, hb⟩ := hm
  simp only at a b c d e hb
  obtain ⟨w, na, ev', hr, hw0, hw3⟩ := A_input_slide_all_acked TRACE
    st1.windowcount.toNat st1 [] (by rw [a]; exact h0) (by rw [a]; exact h3)
    (fun k => by rw [hb]; exact hall k) (by rw [c]; exact hc0) (by rw [c]; omega)
  simp only [hr]
  exact ⟨_, _, rfl, rfl, hw0, hw3, b, d, e, hb⟩

/-- One message over the loss-free channel from a state with `LockstepInv`: the
exchange returns, B hands exactly the message to layer 5, and `LockstepInv` holds
again. -/
theorem exchange_step (TRACE : Int) (a : AState) (b : BState) (message : msg)
    (h : LockstepInv a b) :
    ∃ (a' : AState) (b' : BState),
      exchange TRACE (a, b) message = some ((a', b'), [message.data]) ∧ LockstepInv a' b' := by
  have hwc := h.wc
  have hns0 := h.ns0
  have hns8 := h.ns8
  have hwl0 := h.wl0
  have hout := A_output_eq a message (by omega) h.wl0
  have hbin := B_input_in_order b (mkPkt a.A_nextseqnum NOTINUSE message.data)
    (IsCorrupted_mkPkt _ _ _) (by rw [h.expected]; exact hns0) (by rw [h.expected]; exact hns8)
    (by rw [mkPkt_seqnum, h.expected]) h.slot0 h.slot1
  rw [mkPkt_seqnum, mkPkt_payload] at hbin
  have hns : cmod (a.A_nextseqnum + 1) SEQSPACE = (a.A_nextseqnum + 1) % 8 :=
    cmod_of_nonneg (by omega)
  obtain ⟨a', ev, hin, hwc', hwf0', hwf3', hwl', hns', hfull', hbuf'⟩ :=
    A_input_all_acked TRACE
      { a with
          buffer := Function.update a.buffer (slot (a.windowlast + 1))
            (mkPkt a.A_nextseqnum NOTINUSE message.data)
          windowlast := (a.windowlast + 1) % 3
          windowcount := a.windowcount + 1
          A_nextseqnum := cmod (a.A_nextseqnum + 1) SEQSPACE }
      (mkPkt NOTINUSE a.A_nextseqnum fun _ => 48) (IsCorrupted_mkPkt _ _ _) h.wf0 h.wf3
      (by simp only; omega)
      (by
        intro k
        simp only
        by_cases hk : k = slot (a.windowlast + 1)
        · subst hk
          rw [Function.update_same]
          simp [markSlot, mkPkt_seqnum, mkPkt_acknum]
        · rw [Function.update_noteq hk]
          unfold markSlot
          split
          · rename_i c; exact c.1
          · exact h.acked k)
  simp only at hwl' hns' hfull' hbuf'
  refine ⟨a',
    { b with
        expectedseqnum := (b.expectedseqnum + 1) % 8
        B_windowfirst := 1
        B_index := 0
        B_buffer := Function.update b.B_buffer 0 (mkPkt a.A_nextseqnum NOTINUSE message.data)
        packets_received := b.packets_received + 1 }, ?_, ?_⟩
  · simp only [exchange, hout, sentBy, if_true, B_inputs, hbin, A_inputs, hin]
    split_ifs
    all_goals simp [sentBy, delivered, B_inputs, A_inputs, hbin, hin]
  · refine ⟨hwc', by rw [hfull']; exact h.full, hwf0', hwf3', by rw [hwl']; omega,
      by rw [hns', hns]; omega, by rw [hns', hns]; omega, ?_, ?_, ?_, ?_⟩
    · intro k
      rw [hbuf']
      by_cases hk : k = slot (a.windowlast + 1)
      · subst hk
        rw [Function.update_same]
        simp [markSlot, mkPkt_seqnum, mkPkt_acknum]
      · rw [Function.update_noteq hk]
        unfold markSlot
        split
        · rename_i c; exact c.1
        · exact h.acked k
    · simp only [hns', hns, h.expected]
    · simp only [Function.update_same, mkPkt_seqnum, h.expected]
      omega
    · simp only
      rw [Function.update_noteq (by decide)]
      exact h.slot1

theorem LockstepInv_init : LockstepInv A_init B_init where
  wc := rfl
  full := rfl
  wf0 := by decide
  wf3 := by decide
  wl0 := by decide
  ns0 := by decide
  ns8 := by decide
  acked := fun _ => rfl
  expected := rfl
  slot0 := by decide
  slot1 := rfl

theorem transfer_from_inv (TRACE : Int) (ms : List msg) (a : AState) (b : BState)
    (h : LockstepInv a b) :
    ∃ (a' : AState) (b' : BState),
      transfer TRACE (a, b) ms = some ((a', b'), ms.map msg.data) ∧ LockstepInv a' b' := by
  induction ms generalizing a b with
  | nil => exact ⟨a, b, rfl, h⟩
  | cons m ms ih =>
    obtain ⟨a1, b1, h1, hinv1⟩ := exchange_step TRACE a b m h
    obtain ⟨a2, b2, h2, hinv2⟩ := ih a1 b1 hinv1
    exact ⟨a2, b2, by simp [transfer, h1, h2], hinv2⟩

/-- C1: for every trace level and every list of messages, started from `A_init` and
`B_init` and run message by message over a channel that hands every packet on
unmodified (`A_output`, then `B_input` on what A sent, then `A_input` on what B sent),
the run returns, the payloads B hands to layer 5 are exactly the messages, in
submission order and once each, and `window_full` is still 0. -/
theorem lossless_transfer_delivers_all (TRACE : Int) (ms : List msg) :
    ∃ (a : AState) (b : BState),
      transfer TRACE (A_init, B_init) ms = some ((a, b), ms.map msg.data) ∧
      a.window_full = 0 := by
  obtain ⟨a, b, h, hinv⟩ := transfer_from_inv TRACE ms A_init B_init LockstepInv_init
  exact ⟨a, b, h, hinv.full⟩

/-- The `while` loop of `A_input` makes no pass when its test fails at the start. -/
theorem A_input_slide_stop (TRACE : Int) (fuel : Nat) (st : AState) (ev : List Event)
    (h0 : 0 ≤ st.windowfirst) (h3 : st.windowfirst < 3)
    (h : ¬ ((st.buffer (slot st.windowfirst)).seqnum = (st.buffer (slot st.windowfirst)).acknum ∧
      st.windowcount > 0)) :
    A_input_slide TRACE fuel st ev = some (st, ev) := by
  cases fuel with
  | zero =>
    unfold A_input_slide
    rw [rd_eq_slot _ h0 h3]
    simp only
    rw [if_neg h]
  | succ m =>
    unfold A_input_slide
    rw [rd_eq_slot _ h0 h3]
    simp only
    rw [if_neg h]

/-- In a state with the window shape of `SenderInv` the base packet, if there is one, does
not pass the test of the `while` loop. -/
theorem SenderInv.base_not_acked {st : AState} (h : SenderInv st) :
    ¬ ((st.buffer (slot st.windowfirst)).seqnum = (st.buffer (slot st.windowfirst)).acknum ∧
      st.windowcount > 0) := by
  rintro ⟨e, hpos⟩
  have hb := h.base hpos
  have hs := h.seq 0 (le_refl _) hpos
  simp only [add_zero] at hs
  rw [hb, hs] at e
  unfold NOTINUSE at e
  omega

/-- C11: for `TRACE >= 1`, a reachable sender state with `windowcount > 0` and an
uncorrupted packet whose `acknum` is not the sequence number of the base packet
`buffer[windowfirst]`, `A_input` returns with `windowfirst` and `windowcount` as they
were. -/
theorem A_input_keeps_base (TRACE : Int) (hT : 1 ≤ TRACE) (st : AState)
    (hr : AReachable TRACE st) (hwc : 0 < st.windowcount) (packet : pkt)
    (hp : IsCorrupted packet = false)
    (hne : packet.acknum ≠ (st.buffer (slot st.windowfirst)).seqnum) :
    ∃ (st' : AState) (ev : List Event),
      A_input TRACE st packet = some (st', ev) ∧
      st'.windowfirst = st.windowfirst ∧ st'.windowcount = st.windowcount := by
  have h := hr.senderInv (by omega : 0 < TRACE)
  obtain ⟨n, st', ev, hrun, hn0, hn, hwf, hwc', -, -, -, hb, hall, -⟩ :=
    A_input_spec TRACE (by omega) st packet hp h.wf0 h.wf3 h.wc0
  have hn' : n = 0 := by
    by_contra hne0
    have e0 := hall 0 (le_refl _) (by omega)
    simp only [add_zero] at e0
    rw [hb, markSlot_of_seqnum_ne _ _ (fun e => hne e.symm)] at e0
    exact h.base_not_acked ⟨e0, hwc⟩
  subst hn'
  have hwf0 := h.wf0
  have hwf3 := h.wf3
  exact ⟨st', ev, hrun, by rw [hwf]; omega, by rw [hwc']; omega⟩

theorem A_input_keeps_base_witness :
    ((1 : Int) ≤ 1 ∧ AReachable 1 threeSent ∧ 0 < threeSent.windowcount ∧
      IsCorrupted (mkPkt NOTINUSE 1 fun _ => 48) = false ∧
      (mkPkt NOTINUSE 1 fun _ => 48).acknum ≠
        (threeSent.buffer (slot threeSent.windowfirst)).seqnum) ∧
    ∃ (st' : AState) (ev : List Event),
      A_input 1 threeSent (mkPkt NOTINUSE 1 fun _ => 48) = some (st', ev) ∧
      st'.windowfirst = threeSent.windowfirst ∧ st'.windowcount = threeSent.windowcount :=
  ⟨⟨by decide, threeSent_reachable, by decide, by set_option maxRecDepth 100000 in decide,
    by decide⟩,
   A_input_keeps_base 1 (by decide) threeSent threeSent_reachable (by decide)
     (mkPkt NOTINUSE 1 fun _ => 48) (by set_option maxRecDepth 100000 in decide)
     (by decide)⟩

theorem A_input_mark_noop (packet : pkt) (st : AState) (i : Fin 3)
    (h : ¬ ((st.buffer i).seqnum = packet.acknum ∧ (st.buffer i).acknum = NOTINUSE)) :
    A_input_mark packet st i = st := by
  unfold A_input_mark
  split
  · split
    · rename_i a b; exact absurd ⟨a, b⟩ h
    · rfl
  · rfl

/-- C12: for `TRACE >= 1`, a reachable sender state and an uncorrupted packet whose
`acknum` is not the sequence number of any buffered packet still marked `NOTINUSE`,
`A_input` returns without a call into the emulator (nothing to layer 3, no timer call)
and with every variable as it was, `newACK` apart, which is `false`: `buffer`,
`windowfirst`, `windowlast`, `windowcount`, `A_nextseqnum` and the counters are
unchanged. -/
theorem A_input_ignores_duplicate_ack (TRACE : Int) (hT : 1 ≤ TRACE) (st : AState)
    (hr : AReachable TRACE st) (packet : pkt) (hp : IsCorrupted packet = false)
    (hno : ∀ k, ¬ ((st.buffer k).seqnum = packet.acknum ∧ (st.buffer k).acknum = NOTINUSE)) :
    A_input TRACE st packet = some ({ st with newACK := false }, []) := by
  have h := hr.senderInv (by omega : 0 < TRACE)
  have h3 : List.finRange 3 = [0, 1, 2] := by decide
  have hfold : (List.finRange 3).foldl (A_input_mark packet) { st with newACK := false } =
      { st with newACK := false } := by
    simp only [h3, List.foldl_cons, List.foldl_nil]
    rw [A_input_mark_noop packet { st with newACK := false } 0 (hno 0),
      A_input_mark_noop packet { st with newACK := false } 1 (hno 1),
      A_input_mark_noop packet { st with newACK := false } 2 (hno 2)]
  simp only [A_input, hp, Bool.not_false, if_true, hfold]
  rw [A_input_slide_stop TRACE _ { st with newACK := false } [] h.wf0 h.wf3
    h.base_not_acked]
  simp

theorem A_input_ignores_duplicate_ack_witness :
    ((1 : Int) ≤ 1 ∧ AReachable 1 threeSent ∧
      IsCorrupted (mkPkt NOTINUSE 5 fun _ => 48) = false ∧
      ∀ k, ¬ ((threeSent.buffer k).seqnum = (mkPkt NOTINUSE 5 fun _ => 48).acknum ∧
        (threeSent.buffer k).acknum = NOTINUSE)) ∧
    A_input 1 threeSent (mkPkt NOTINUSE 5 fun _ => 48) =
      some ({ threeSent with newACK := false }, []) :=
  ⟨⟨by decide, threeSent_reachable, by set_option maxRecDepth 100000 in decide,
    by set_option maxRecDepth 100000 in decide⟩,
   A_input_ignores_duplicate_ack 1 (by decide) threeSent threeSent_reachable
     (mkPkt NOTINUSE 5 fun _ => 48) (by set_option maxRecDepth 100000 in decide)
     (by set_option maxRecDepth 100000 in decide)⟩

/-- The `for` loop of `A_timerinterrupt` over the values in `l`: it hands on the packets
of the named slots that are marked `NOTINUSE`, in order, and counts them. -/
theorem A_timerinterrupt_resend_eq (l : List Nat) (st : AState) (ev : List Event)
    (h0 : 0 ≤ st.windowfirst) :
    A_timerinterrupt_resend l st ev =
      some ({ st with
                packets_resent := st.packets_resent +
                  ((l.map fun i : Nat => st.buffer (slot (st.windowfirst + (i : Int)))).filter
                    fun b => b.acknum = NOTINUSE).length },
            ev ++ ((l.map fun i : Nat => st.buffer (slot (st.windowfirst + (i : Int)))).filter
              fun b => b.acknum = NOTINUSE).map (Event.tolayer3 Entity.A)) := by
  induction l generalizing st ev with
  | nil => simp [A_timerinterrupt_resend]
  | cons i l ih =>
    unfold A_timerinterrupt_resend
    have hi : cmod (st.windowfirst + i) WINDOWSIZE = (st.windowfirst + i) % 3 :=
      cmod_of_nonneg (by omega)
    rw [hi, rd_eq_slot _ (by omega) (by omega), slot_emod]
    simp only
    split
    · rename_i hack
      rw [ih { st with packets_resent := st.packets_resent + 1 } _ h0]
      simp only [List.map_cons, List.filter_cons, hack, decide_True, if_true, List.length_cons,
        List.map_cons, List.append_assoc, List.singleton_append]
      congr 2
      simp only [AState.mk.injEq, true_and, and_true]
      push_cast
      ring
    · rename_i hack
      rw [ih st _ h0]
      simp only [List.map_cons, List.filter_cons, hack, decide_False]
      rfl

/-- C14: with `windowfirst >= 0`, `A_timerinterrupt` hands to layer 3 exactly the packets
of the slots `(windowfirst + i) mod WINDOWSIZE`, `i = 0 .. windowcount - 1`, that are
marked `NOTINUSE`, in increasing `i`, then calls `starttimer`; `packets_resent` grows by
the number of packets sent and nothing else changes.  With `windowcount = 0` nothing is
sent. -/
theorem A_timerinterrupt_resends_unacked (st : AState) (h0 : 0 ≤ st.windowfirst) :
    A_timerinterrupt st =
      some ({ st with packets_resent := st.packets_resent + (unackedInWindow st).length },
            (unackedInWindow st).map (Event.tolayer3 Entity.A) ++
              [Event.starttimer Entity.A RTT]) ∧
    (st.windowcount = 0 → unackedInWindow st = []) := by
  constructor
  · simp only [A_timerinterrupt, A_timerinterrupt_resend_eq _ st [] h0, unackedInWindow,
      List.nil_append]
  · intro hz
    simp [unackedInWindow, hz]

theorem A_timerinterrupt_resends_unacked_witness :
    0 ≤ threeSent.windowfirst ∧
    (A_timerinterrupt threeSent =
        some ({ threeSent with
                  packets_resent := threeSent.packets_resent + (unackedInWindow threeSent).length },
              (unackedInWindow threeSent).map (Event.tolayer3 Entity.A) ++
                [Event.starttimer Entity.A RTT]) ∧
      (threeSent.windowcount = 0 → unackedInWindow threeSent = [])) :=
  ⟨by decide, A_timerinterrupt_resends_unacked threeSent (by decide)⟩

theorem A_calls_append (TRACE : Int) (cs1 cs2 : List ACall) (st : AState) :
    A_calls TRACE st (cs1 ++ cs2) =
      match A_calls TRACE st cs1 with
      | none => none
      | some (st1, ev1) =>
        match A_calls TRACE st1 cs2 with
        | none => none
        | some (st2, ev2) => some (st2, ev1 ++ ev2) := by
  induction cs1 generalizing st with
  | nil =>
    simp only [List.nil_append, A_calls]
    cases A_calls TRACE st cs2 with
    | none => rfl
    | some r => simp
  | cons c cs ih =>
    simp only [List.cons_append, A_calls, List.append_eq, ih]
    cases c.run TRACE st with
    | none => rfl
    | some r =>
      obtain ⟨st1, ev1⟩ := r
      simp only
      cases A_calls TRACE st1 cs with
      | none => rfl
      | some r2 =>
        obtain ⟨st2, ev2⟩ := r2
        simp only
        cases A_calls TRACE st2 cs2 with
        | none => rfl
        | some r3 => simp

/-- After three `A_output` calls from `A_init` and `A_input` of an uncorrupted ACK with
`acknum` 1, for any trace level: the window still starts at slot 0 and has three
packets, the packets 0 and 2 are marked `NOTINUSE`, packet 1 is marked acknowledged. -/
theorem after_three_sent_ack_one (TRACE : Int) (m0 m1 m2 : msg) (ack : pkt)
    (hp : IsCorrupted ack = false) (ha : ack.acknum = 1) :
    ∃ (st : AState) (ev : List Event),
      A_calls TRACE A_init
        [ACall.output m0, ACall.output m1, ACall.output m2, ACall.input ack] = some (st, ev) ∧
      st.windowfirst = 0 ∧ st.windowcount = 3 ∧
      st.buffer 0 = mkPkt 0 NOTINUSE m0.data ∧
      st.buffer 1 = { mkPkt 1 NOTINUSE m1.data with acknum := 1 } ∧
      st.buffer 2 = mkPkt 2 NOTINUSE m2.data := by
  obtain ⟨s3, ev3, h3, hwf, hwc, hb0, hb1, hb2⟩ : ∃ (s3 : AState) (ev3 : List Event),
      A_calls TRACE A_init [ACall.output m0, ACall.output m1, ACall.output m2] =
        some (s3, ev3) ∧
      s3.windowfirst = 0 ∧ s3.windowcount = 3 ∧
      s3.buffer 0 = mkPkt 0 NOTINUSE m0.data ∧ s3.buffer 1 = mkPkt 1 NOTINUSE m1.data ∧
      s3.buffer 2 = mkPkt 2 NOTINUSE m2.data :=
    ⟨_, _, rfl, rfl, rfl, rfl, rfl, rfl⟩
  have hm := A_input_marks ack { s3 with newACK := false }
  have hin : ∃ st, A_input TRACE s3 ack = some (st, []) ∧ st.windowfirst = 0 ∧
      st.windowcount = 3 ∧ ∀ k, st.buffer k = markSlot ack (s3.buffer k) := by
    simp only [A_input, hp, Bool.not_false, if_true]
    generalize (List.finRange 3).foldl (A_input_mark ack) { s3 with newACK := false } = st1
      at hm ⊢
    obtain ⟨a, -, c, -, -, -, -, hb⟩ := hm
    simp only at a c hb
    rw [hwf] at a
    rw [hwc] at c
    have hbase : ¬ ((st1.buffer (slot st1.windowfirst)).seqnum =
        (st1.buffer (slot st1.windowfirst)).acknum ∧ st1.windowcount > 0) := by
      rw [a]
      have e : slot 0 = (0 : Fin 3) := rfl
      rw [e, hb, hb0, markSlot_of_seqnum_ne _ _ (by rw [mkPkt_seqnum, ha]; decide)]
      rw [mkPkt_seqnum, mkPkt_acknum]
      exact fun h => absurd h.1 (by decide)
    rw [A_input_slide_stop TRACE _ st1 [] (by rw [a]) (by rw [a]; decide) hbase]
    refine ⟨st1, ?_, a, c, hb⟩
    simp [c]
  obtain ⟨st, hst, hwf', hwc', hb'⟩ := hin
  refine ⟨st, ev3 ++ ([] ++ []), ?_, hwf', hwc', ?_, ?_, ?_⟩
  · have e : [ACall.output m0, ACall.output m1, ACall.output m2, ACall.input ack] =
        [ACall.output m0, ACall.output m1, ACall.output m2] ++ [ACall.input ack] := rfl
    rw [e, A_calls_append, h3]
    simp only [A_calls, ACall.run, hst]
  · rw [hb', hb0, markSlot_of_seqnum_ne _ _ (by rw [mkPkt_seqnum, ha]; decide)]
  · rw [hb', hb1]
    simp [markSlot, mkPkt_seqnum, mkPkt_acknum, ha]
  · rw [hb', hb2, markSlot_of_seqnum_ne _ _ (by rw [mkPkt_seqnum, ha]; decide)]

/-- C13 as stated fails: after `A_init`, three `A_output` calls and `A_input` of the
uncorrupted ACK with `acknum` 1 (`TRACE = 1`), `A_timerinterrupt` hands to layer 3 the
packets with sequence numbers 0 and 2 only; packet 1 is not among them. -/
theorem timeout_skips_acknowledged_packet :
    IsCorrupted (mkPkt NOTINUSE 1 fun _ => 48) = false ∧
    ((A_calls 1 A_init
        [ACall.output ⟨fun _ => 97⟩, ACall.output ⟨fun _ => 98⟩, ACall.output ⟨fun _ => 99⟩,
         ACall.input (mkPkt NOTINUSE 1 fun _ => 48)]).bind
      fun r => A_timerinterrupt r.1).map (fun r => (sentBy Entity.A r.2).map pkt.seqnum) =
      some [0, 2] := by
  set_option maxRecDepth 100000 in decide

/-- C13, amended: for any trace level, any three messages and any uncorrupted ACK with
`acknum` 1, after `A_init`, `A_output` of the three messages and `A_input` of the ACK,
`A_timerinterrupt` hands to layer 3 exactly the packets with sequence numbers 0 and 2,
in that order, then calls `starttimer`; `packets_resent` grows by 2 and nothing else
changes.  Packet 1, which is acknowledged, is not resent. -/
theorem timeout_resends_unacknowledged (TRACE : Int) (m0 m1 m2 : msg) (ack : pkt)
    (hp : IsCorrupted ack = false) (ha : ack.acknum = 1) :
    ∃ (st : AState) (ev : List Event),
      A_calls TRACE A_init
        [ACall.output m0, ACall.output m1, ACall.output m2, ACall.input ack] = some (st, ev) ∧
      A_timerinterrupt st =
        some ({ st with packets_resent := st.packets_resent + 2 },
              [Event.tolayer3 Entity.A (mkPkt 0 NOTINUSE m0.data),
               Event.tolayer3 Entity.A (mkPkt 2 NOTINUSE m2.data),
               Event.starttimer Entity.A RTT]) := by
  obtain ⟨st, ev, hrun, hwf, hwc, hb0, hb1, hb2⟩ :=
    after_three_sent_ack_one TRACE m0 m1 m2 ack hp ha
  refine ⟨st, ev, hrun, ?_⟩
  have e0 : slot 0 = (0 : Fin 3) := rfl
  have e1 : slot 1 = (1 : Fin 3) := rfl
  have e2 : slot 2 = (2 : Fin 3) := rfl
  have hr : List.range 3 = [0, 1, 2] := by decide
  simp only [A_timerinterrupt, A_timerinterrupt_resend_eq _ st [] (by rw [hwf]), hwc, hwf]
  simp [hr, e0, e1, e2, hb0, hb1, hb2, mkPkt_acknum, NOTINUSE]

theorem timeout_resends_unacknowledged_witness :
    (IsCorrupted (mkPkt NOTINUSE 1 fun _ => 48) = false ∧
      (mkPkt NOTINUSE 1 fun _ => 48).acknum = 1) ∧
    ∃ (st : AState) (ev : List Event),
      A_calls 1 A_init
        [ACall.output ⟨fun _ => 97⟩, ACall.output ⟨fun _ => 98⟩, ACall.output ⟨fun _ => 99⟩,
         ACall.input (mkPkt NOTINUSE 1 fun _ => 48)] = some (st, ev) ∧
      A_timerinterrupt st =
        some ({ st with packets_resent := st.packets_resent + 2 },
              [Event.tolayer3 Entity.A (mkPkt 0 NOTINUSE (msg.mk fun _ => 97).data),
               Event.tolayer3 Entity.A (mkPkt 2 NOTINUSE (msg.mk fun _ => 99).data),
               Event.starttimer Entity.A RTT]) :=
  ⟨⟨by set_option maxRecDepth 100000 in decide, rfl⟩,
   timeout_resends_unacknowledged 1 ⟨fun _ => 97⟩ ⟨fun _ => 98⟩ ⟨fun _ => 99⟩
     (mkPkt NOTINUSE 1 fun _ => 48) (by set_option maxRecDepth 100000 in decide) rfl⟩

/-- C20, evaluated: `oneSent` is the sender after `A_init` and one `A_output`; on the
uncorrupted ACK with `acknum` 0, `A_input` with `TRACE = 0` leaves `windowfirst` at 0 and
with `TRACE = 1` moves it to 1 (the timer calls and `windowcount` are the same): the
state after `A_input` depends on the trace level. -/
theorem trace_changes_windowfirst :
    A_calls 0 A_init [ACall.output ⟨fun _ => 97⟩] =
      some (oneSent, [Event.tolayer3 Entity.A (mkPkt 0 NOTINUSE fun _ => 97),
                      Event.starttimer Entity.A RTT]) ∧
    IsCorrupted (mkPkt NOTINUSE 0 fun _ => 48) = false ∧
    (A_input 0 oneSent (mkPkt NOTINUSE 0 fun _ => 48)).map
        (fun r => (r.1.windowfirst, r.1.windowcount, timerOps r.2)) =
      some (0, 0, [Event.stoptimer Entity.A, Event.starttimer Entity.A RTT,
                   Event.stoptimer Entity.A]) ∧
    (A_input 1 oneSent (mkPkt NOTINUSE 0 fun _ => 48)).map
        (fun r => (r.1.windowfirst, r.1.windowcount, timerOps r.2)) =
      some (1, 0, [Event.stoptimer Entity.A, Event.starttimer Entity.A RTT,
                   Event.stoptimer Entity.A]) := by
  set_option maxRecDepth 100000 in decide

theorem timerAfter_append (t : Bool) (l1 l2 : List Event) :
    timerAfter t (l1 ++ l2) = timerAfter (timerAfter t l1) l2 := by
  induction l1 generalizing t with
  | nil => rfl
  | cons x l ih => cases x <;> simp [timerAfter, ih]

theorem timerAfter_tolayer3 (t : Bool) (e : Entity) (ps : List pkt) :
    timerAfter t (ps.map (Event.tolayer3 e)) = t := by
  induction ps with
  | nil => rfl
  | cons p ps ih => simpa [timerAfter] using ih


/-- The calls the `while` loop of `A_input` makes: none when `windowcount` is as before,
and otherwise timer calls that leave the timer running. -/
theorem A_input_slide_timer (TRACE : Int) (fuel : Nat) (st : AState) (ev : List Event)
    (st' : AState) (ev' : List Event) (h : A_input_slide TRACE fuel st ev = some (st', ev')) :
    ∃ extra : List Event, ev' = ev ++ extra ∧ st'.newACK = st.newACK ∧
      ((st'.windowcount = st.windowcount ∧ extra = []) ∨
        (st'.windowcount < st.windowcount ∧ ∀ t, timerAfter t extra = true)) := by
  induction fuel generalizing st ev with
  | zero =>
    unfold A_input_slide at h
    split at h
    · cases h
    · split at h
      · cases h
      · cases h; exact ⟨[], by simp, rfl, Or.inl ⟨rfl, rfl⟩⟩
  | succ m ih =>
    unfold A_input_slide at h
    split at h
    · cases h
    · split at h
      · obtain ⟨extra, he, hn, hcase⟩ := ih _ _ h
        simp only at hn hcase
        refine ⟨[Event.stoptimer Entity.A, Event.starttimer Entity.A RTT] ++ extra,
          by rw [he]; simp, hn, Or.inr ⟨?_, ?_⟩⟩
        · rcases hcase with c | c <;> omega
        · intro t
          rw [timerAfter_append]
          rcases hcase with c | c
          · rw [c.2]; rfl
          · exact c.2 _
      · cases h; exact ⟨[], by simp, rfl, Or.inl ⟨rfl, rfl⟩⟩

theorem A_input_mark_newACK (packet : pkt) (st : AState) (i : Fin 3) :
    (A_input_mark packet st i).newACK =
      (st.newACK || decide ((st.buffer i).seqnum = packet.acknum ∧
        (st.buffer i).acknum = NOTINUSE)) := by
  unfold A_input_mark
  split_ifs <;> simp_all

/-- After the `for` loop of `A_input`, `newACK` tells whether some slot held the
acknowledged sequence number and was still marked `NOTINUSE`. -/
theorem A_input_marks_newACK (packet : pkt) (st : AState) (k : Fin 3)
    (hk : (st.buffer k).seqnum = packet.acknum ∧ (st.buffer k).acknum = NOTINUSE) :
    ((List.finRange 3).foldl (A_input_mark packet) st).newACK = true := by
  have h3 : List.finRange 3 = [0, 1, 2] := by decide
  simp only [h3, List.foldl_cons, List.foldl_nil, A_input_mark_newACK]
  obtain ⟨-, -, -, -, -, -, -, i0⟩ := A_input_mark_frame packet st 0
  obtain ⟨-, -, -, -, -, -, -, i1⟩ := A_input_mark_frame packet (A_input_mark packet st 0) 1
  rw [i1, i0]
  fin_cases k
  · simp only [Fin.zero_eta] at hk
    simp [hk.1, hk.2]
  · simp only [Fin.mk_one] at hk
    have : (Function.update st.buffer 0 (markSlot packet (st.buffer 0)) 1) = st.buffer 1 :=
      Function.update_noteq (by decide) _ _
    simp [this, hk.1, hk.2]
  · have e : (⟨2, by decide⟩ : Fin 3) = 2 := rfl
    simp only [e] at hk
    have : (Function.update (Function.update st.buffer 0 (markSlot packet (st.buffer 0))) 1
        (markSlot packet (Function.update st.buffer 0 (markSlot packet (st.buffer 0)) 1)) 2) =
        st.buffer 2 := by
      rw [Function.update_noteq (by decide), Function.update_noteq (by decide)]
    simp [this, hk.1, hk.2]

theorem TimedReachable.reachable {TRACE : Int} {s : AState × Bool}
    (h : TimedReachable TRACE s) : AReachable TRACE s.1 := by
  induction h with
  | init => exact AReachable.init
  | step s s1 c _ hstep ih =>
    cases c with
    | output message =>
      simp only [timedStep, Option.map_eq_some'] at hstep
      obtain ⟨r, hr, rfl⟩ := hstep
      exact AReachable.step s.1 r.1 (ACall.output message) r.2 ih hr
    | input packet =>
      simp only [timedStep, Option.map_eq_some'] at hstep
      obtain ⟨r, hr, rfl⟩ := hstep
      exact AReachable.step s.1 r.1 (ACall.input packet) r.2 ih hr
    | timerinterrupt =>
      simp only [timedStep] at hstep
      split at hstep
      · simp only [Option.map_eq_some'] at hstep
        obtain ⟨r, hr, rfl⟩ := hstep
        exact AReachable.step s.1 r.1 ACall.timerinterrupt r.2 ih hr
      · cases hstep

/-- One event keeps "the timer runs exactly when the window is not empty", for
`TRACE > 0` and a state with the window shape of `SenderInv`. -/
theorem timedStep_timer (TRACE : Int) (hT : 0 < TRACE) (st : AState) (t : Bool) (c : ACall)
    (st1 : AState) (t1 : Bool) (hinv : SenderInv st) (ht : t = true ↔ 0 < st.windowcount)
    (hstep : timedStep TRACE (st, t) c = some (st1, t1)) :
    t1 = true ↔ 0 < st1.windowcount := by
  cases c with
  | output message =>
    simp only [timedStep, Option.map_eq_some'] at hstep
    obtain ⟨r, hr, hr'⟩ := hstep
    by_cases hc : st.windowcount < 3
    · rw [A_output_eq st message hc hinv.wl0] at hr
      cases hr
      simp only [Prod.mk.injEq] at hr'
      obtain ⟨rfl, rfl⟩ := hr'
      simp only [timerAfter]
      have hwc0 := hinv.wc0
      split_ifs with hz
      · simp [timerAfter]; omega
      · simp only [timerAfter]; rw [ht]; constructor <;> intro <;> omega
    · have hc' : ¬ st.windowcount < WINDOWSIZE := hc
      simp only [A_output, if_neg hc'] at hr
      cases hr
      simp only [Prod.mk.injEq] at hr'
      obtain ⟨rfl, rfl⟩ := hr'
      simpa [timerAfter] using ht
  | input packet =>
    simp only [timedStep, Option.map_eq_some'] at hstep
    obtain ⟨r, hr, hr'⟩ := hstep
    simp only [Prod.mk.injEq] at hr'
    obtain ⟨rfl, rfl⟩ := hr'
    cases hp : IsCorrupted packet with
    | true =>
      simp only [A_input, hp, Bool.not_true] at hr
      cases hr
      simpa [timerAfter] using ht
    | false =>
      have hinv1 : SenderInv r.1 := SenderInv_input TRACE hT st r.1 packet r.2 hinv hr
      have hm := A_input_marks packet { st with newACK := false }
      have hnew := A_input_marks_newACK packet { st with newACK := false }
      simp only [A_input, hp, Bool.not_false, if_true] at hr
      generalize (List.finRange 3).foldl (A_input_mark packet) { st with newACK := false } = sm
        at hm hnew hr
      obtain ⟨a, -, c, -, -, -, -, hb⟩ := hm
      simp only at a c hb hnew
      split at hr
      · cases hr
      · rename_i st2 ev hslide
        cases hr
        obtain ⟨extra, he, hn, hcase⟩ := A_input_slide_timer TRACE _ sm [] st2 ev hslide
        simp only [List.nil_append] at he
        subst he
        rw [c] at hcase
        simp only at hinv1 ⊢
        have hwc0 := hinv1.wc0
        simp only at hwc0
        rcases hcase with ⟨hsame, hnil⟩ | ⟨hless, htimer⟩
        · subst hnil
          simp only [List.nil_append]
          split_ifs with hz
          · simp only [timerAfter]
            constructor
            · intro h; cases h
            · intro h; omega
          · simp only [timerAfter]
            rw [ht, hsame]
        · rw [timerAfter_append, htimer]
          have hmarked : st2.newACK = true := by
            rw [hn]
            have hpos : 0 < st.windowcount := by omega
            by_contra hcon
            have hbase := hinv.base hpos
            have hnot : ∀ k, ¬ ((st.buffer k).seqnum = packet.acknum ∧
                (st.buffer k).acknum = NOTINUSE) := fun k hk => hcon (hnew k hk)
            have hsame : ∀ k, sm.buffer k = st.buffer k := by
              intro k
              rw [hb]
              unfold markSlot
              rw [if_neg (hnot k)]
            have hstop := A_input_slide_stop TRACE sm.windowcount.toNat sm []
              (by rw [a]; exact hinv.wf0) (by rw [a]; exact hinv.wf3)
              (by rw [a, c, hsame]; exact hinv.base_not_acked)
            rw [hstop] at hslide
            cases hslide
            omega
          split_ifs with hz
          · simp only [timerAfter]
            constructor
            · intro h; cases h
            · intro h; omega
          · have hpos : 0 < st2.windowcount := by
              rcases lt_or_eq_of_le hwc0 with h | h
              · exact h
              · exact absurd ⟨h.symm, hmarked⟩ hz
            simp [timerAfter, hpos]
  | timerinterrupt =>
    simp only [timedStep] at hstep
    split at hstep
    · rename_i hon
      have hpos := ht.1 hon
      have hres := A_timerinterrupt_resend_eq (List.range st.windowcount.toNat) st []
        hinv.wf0
      simp only [A_timerinterrupt, hres, Option.map_some', Option.some.injEq,
        Prod.mk.injEq] at hstep
      obtain ⟨rfl, rfl⟩ := hstep
      simp only [List.nil_append, timerAfter_append, timerAfter_tolayer3, timerAfter]
      exact ⟨fun _ => hpos, fun _ => trivial⟩
    · cases hstep

theorem TimedReachable.timer {TRACE : Int} (hT : 0 < TRACE) {s : AState × Bool}
    (h : TimedReachable TRACE s) : s.2 = true ↔ 0 < s.1.windowcount := by
  induction h with
  | init => decide
  | step s s1 c hs hstep ih =>
    exact timedStep_timer TRACE hT s.1 s.2 c s1.1 s1.2 (hs.reachable.senderInv hT) ih hstep

theorem threeSent_timed : TimedReachable 1 (threeSent, true) :=
  TimedReachable.step _ _ (ACall.output ⟨fun _ => 99⟩)
    (TimedReachable.step _ _ (ACall.output ⟨fun _ => 98⟩)
      (TimedReachable.step _ _ (ACall.output ⟨fun _ => 97⟩) TimedReachable.init rfl) rfl) rfl

/-- C15: for `TRACE >= 1`, with the timer a flag that `starttimer` sets, `stoptimer`
clears and firing clears before `A_timerinterrupt` runs: in every state reachable from
`A_init` with the timer off by `A_output` calls, `A_input` calls and timer interrupts
that occur only while the timer runs, the timer runs exactly when `windowcount > 0`.
Moreover every such event returns from such a state. -/
theorem timer_runs_iff_window_nonempty (TRACE : Int) (hT : 1 ≤ TRACE) (st : AState)
    (t : Bool) (h : TimedReachable TRACE (st, t)) :
    (t = true ↔ 0 < st.windowcount) ∧
    ∀ c : ACall, (c = ACall.timerinterrupt → t = true) →
      ∃ s1, timedStep TRACE (st, t) c = some s1 := by
  refine ⟨h.timer (by omega), fun c hc => ?_⟩
  obtain ⟨st1, ev, hr, -⟩ := IndexInv_run TRACE st c h.reachable.indexInv
  cases c with
  | output message =>
    simp only [ACall.run] at hr
    exact ⟨(st1, timerAfter t ev), by simp only [timedStep, hr, Option.map_some']⟩
  | input packet =>
    simp only [ACall.run] at hr
    exact ⟨(st1, timerAfter t ev), by simp only [timedStep, hr, Option.map_some']⟩
  | timerinterrupt =>
    simp only [ACall.run] at hr
    exact ⟨(st1, timerAfter false ev),
      by simp only [timedStep, hc rfl, if_true, hr, Option.map_some']⟩

theorem timer_runs_iff_window_nonempty_witness :
    ((1 : Int) ≤ 1 ∧ TimedReachable 1 (threeSent, true)) ∧
    ((true = true ↔ 0 < threeSent.windowcount) ∧
      ∀ c : ACall, (c = ACall.timerinterrupt → true = true) →
        ∃ s1, timedStep 1 (threeSent, true) c = some s1) :=
  ⟨⟨by decide, threeSent_timed⟩,
   timer_runs_iff_window_nonempty 1 (by decide) threeSent true threeSent_timed⟩

/-- The delivery loop of `B_input`: it leaves everything but `expectedseqnum` and
`B_windowfirst` alone, hands `k` payloads to layer 5 and moves `expectedseqnum` on by
`k`, where `k` is at most the fuel and at least 1 when the first test holds. -/
theorem B_input_deliver_spec (fuel : Nat) (st : BState) (ev : List Event)
    (st1 : BState) (ev1 : List Event) (h : B_input_deliver fuel st ev = some (st1, ev1))
    (he0 : 0 ≤ st.expectedseqnum) (he8 : st.expectedseqnum < 8) :
    st1.B_buffer = st.B_buffer ∧ st1.packets_received = st.packets_received ∧
    st1.B_index = st.B_index ∧ st1.B_nextseqnum = st.B_nextseqnum ∧
    ∃ (k : Nat) (ds : List (Fin 20 → Int)),
      k ≤ fuel ∧ ds.length = k ∧ ev1 = ev ++ ds.map (Event.tolayer5 Entity.B) ∧
      st1.expectedseqnum = (st.expectedseqnum + k) % 8 ∧
      (k = 0 → st1 = st) ∧
      (∀ b, rd st.B_buffer st.B_windowfirst = some b → b.seqnum = st.expectedseqnum →
        1 ≤ k) := by
  induction fuel generalizing st ev with
  | zero =>
    unfold B_input_deliver at h
    split at h
    · cases h
    · rename_i b hb
      split at h
      · cases h
      · rename_i hne
        cases h
        refine ⟨rfl, rfl, rfl, rfl, 0, [], le_refl _, rfl, by simp, by simp; omega,
          fun _ => rfl, ?_⟩
        intro b' hb' hs
        rw [hb] at hb'
        cases hb'
        exact absurd hs hne
  | succ m ih =>
    unfold B_input_deliver at h
    split at h
    · cases h
    · rename_i b hb
      split at h
      · have hn : cmod (st.expectedseqnum + 1) SEQSPACE = (st.expectedseqnum + 1) % 8 :=
          cmod_of_nonneg (by omega)
        rw [hn] at h
        obtain ⟨a1, a2, a3, a4, k, ds, hk, hlen, hev, hexp, -, -⟩ := ih _ _ h
          (by simp only; omega) (by simp only; omega)
        simp only at a1 a2 a3 a4 hexp
        refine ⟨a1, a2, a3, a4, k + 1, b.payload :: ds, by omega, by simp [hlen],
          by rw [hev]; simp, ?_, fun hz => absurd hz (by omega), fun _ _ _ => by omega⟩
        rw [hexp]
        push_cast
        omega
      · rename_i hne
        cases h
        refine ⟨rfl, rfl, rfl, rfl, 0, [], Nat.zero_le _, rfl, by simp, by simp; omega,
          fun _ => rfl, ?_⟩
        intro b' hb' hs
        rw [hb] at hb'
        cases hb'
        exact absurd hs hne

/-- The window part of `B_input` for `expectedseqnum` and `packet.seqnum` in
`0 .. SEQSPACE - 1`, in terms of the offset of the packet from `expectedseqnum`. -/
theorem B_input_window_eq (st : BState) (packet : pkt)
    (he0 : 0 ≤ st.expectedseqnum) (he8 : st.expectedseqnum < 8)
    (hs0 : 0 ≤ packet.seqnum) (hs8 : packet.seqnum < 8) :
    B_input_window st packet =
      if (packet.seqnum - st.expectedseqnum + 8) % 8 < 3 then
        if (st.B_buffer (slot ((packet.seqnum - st.expectedseqnum + 8) % 8))).seqnum ≠
            packet.seqnum then
          B_input_deliver 3
            { st with
                B_index := (packet.seqnum - st.expectedseqnum + 8) % 8
                packets_received := st.packets_received + 1
                B_buffer := Function.update st.B_buffer
                  (slot ((packet.seqnum - st.expectedseqnum + 8) % 8)) packet
                B_windowfirst := 0 }
            []
        else some ({ st with B_index := (packet.seqnum - st.expectedseqnum + 8) % 8 }, [])
      else some (st, []) := by
  have hlast : cmod (st.expectedseqnum + WINDOWSIZE - 1) SEQSPACE =
      (st.expectedseqnum + 2) % 8 := by
    rw [cmod_of_nonneg (by unfold WINDOWSIZE; omega)]
    unfold WINDOWSIZE SEQSPACE
    omega
  have hoff : cmod (packet.seqnum - st.expectedseqnum + SEQSPACE) SEQSPACE =
      (packet.seqnum - st.expectedseqnum + 8) % 8 :=
    cmod_of_nonneg (by unfold SEQSPACE; omega)
  unfold B_input_window
  simp only [hlast, hoff]
  by_cases hin : (packet.seqnum - st.expectedseqnum + 8) % 8 < 3
  · have hcond : (st.expectedseqnum < (st.expectedseqnum + 2) % 8 ∧
          (packet.seqnum ≥ st.expectedseqnum ∧
            packet.seqnum ≤ (st.expectedseqnum + 2) % 8)) ∨
        (st.expectedseqnum > (st.expectedseqnum + 2) % 8 ∧
          (packet.seqnum ≥ st.expectedseqnum ∨
            packet.seqnum ≤ (st.expectedseqnum + 2) % 8)) := by omega
    have hidx : cmod ((packet.seqnum - st.expectedseqnum + 8) % 8) WINDOWSIZE =
        (packet.seqnum - st.expectedseqnum + 8) % 8 := by
      rw [cmod_of_nonneg (by omega)]
      unfold WINDOWSIZE
      omega
    rw [if_pos hcond, if_pos hin, hidx, rd_eq_slot _ (by omega) hin,
      wr_eq_slot _ _ (by omega) hin]
  · have hcond : ¬ ((st.expectedseqnum < (st.expectedseqnum + 2) % 8 ∧
          (packet.seqnum ≥ st.expectedseqnum ∧
            packet.seqnum ≤ (st.expectedseqnum + 2) % 8)) ∨
        (st.expectedseqnum > (st.expectedseqnum + 2) % 8 ∧
          (packet.seqnum ≥ st.expectedseqnum ∨
            packet.seqnum ≤ (st.expectedseqnum + 2) % 8))) := by omega
    rw [if_neg hcond, if_neg hin]

theorem B_input_of_window (st : BState) (packet : pkt) (st1 : BState) (ev : List Event)
    (hp : IsCorrupted packet = false) (hw : B_input_window st packet = some (st1, ev)) :
    B_input st packet =
      some (st1, ev ++ [Event.tolayer3 Entity.B (mkPkt NOTINUSE packet.seqnum fun _ => 48)]) := by
  simp only [B_input, hp, Bool.not_false, if_true, hw]
  rfl

/-- `B_input` twice on the same packet, from a state with `ReceiverInv`: both calls
return, the second one hands nothing to layer 5 and leaves the state as the first one
left it, and `ReceiverInv` holds again. -/
theorem B_input_idem (st : BState) (packet : pkt) (hinv : ReceiverInv st)
    (hs0 : 0 ≤ packet.seqnum) (hs8 : packet.seqnum < 8) :
    ∃ (st1 : BState) (ev1 ev2 : List Event),
      B_input st packet = some (st1, ev1) ∧ ReceiverInv st1 ∧
      B_input st1 packet = some (st1, ev2) ∧ delivered ev2 = [] := by
  have he0 := hinv.e0
  have he8 := hinv.e8
  cases hp : IsCorrupted packet with
  | true =>
    exact ⟨st, [], [], by simp [B_input, hp], hinv, by simp [B_input, hp], rfl⟩
  | false =>
    have hw := B_input_window_eq st packet he0 he8 hs0 hs8
    by_cases hin : (packet.seqnum - st.expectedseqnum + 8) % 8 < 3
    · rw [if_pos hin] at hw
      by_cases hdup : (st.B_buffer (slot ((packet.seqnum - st.expectedseqnum + 8) % 8))).seqnum ≠
          packet.seqnum
      · rw [if_pos hdup] at hw
        by_cases hj : (packet.seqnum - st.expectedseqnum + 8) % 8 = 0
        · -- the expected packet: stored in slot 0 and delivered
          have hse : packet.seqnum = st.expectedseqnum := by omega
          have hslot : slot ((packet.seqnum - st.expectedseqnum + 8) % 8) = (0 : Fin 3) := by
            rw [hj]; rfl
          rw [hslot, hj] at hw
          obtain ⟨⟨st1, ev1⟩, hd⟩ := B_input_deliver_terminates
            { st with
                B_index := 0
                packets_received := st.packets_received + 1
                B_buffer := Function.update st.B_buffer 0 packet
                B_windowfirst := 0 } [] rfl he0 he8
          obtain ⟨hb, -, -, -, k, ds, hk, -, hev, hexp, -, hk1⟩ :=
            B_input_deliver_spec _ _ _ _ _ hd he0 he8
          simp only at hb hexp hk1
          have hk1' : 1 ≤ k := hk1 packet (by rfl) hse
          have hinv1 : ReceiverInv st1 :=
            ⟨by rw [hexp]; omega, by rw [hexp]; omega,
              by rw [hb, Function.update_same, hexp, hse]; omega⟩
          have hw1 := B_input_window_eq st1 packet hinv1.e0 hinv1.e8 hs0 hs8
          have hout : ¬ (packet.seqnum - st1.expectedseqnum + 8) % 8 < 3 := by
            rw [hexp, hse]; omega
          rw [if_neg hout] at hw1
          rw [hd] at hw
          exact ⟨st1, _, _, B_input_of_window _ _ _ _ hp hw, hinv1,
            B_input_of_window _ _ _ _ hp hw1, by simp [delivered]⟩
        · -- a packet further on in the window: stored, nothing delivered
          have hne0 : slot ((packet.seqnum - st.expectedseqnum + 8) % 8) ≠ (0 : Fin 3) := by
            intro e
            have e' : slot ((packet.seqnum - st.expectedseqnum + 8) % 8) = slot 0 := e
            rw [slot_eq_iff] at e'
            omega
          have hb0 : Function.update st.B_buffer
              (slot ((packet.seqnum - st.expectedseqnum + 8) % 8)) packet 0 = st.B_buffer 0 :=
            Function.update_noteq (Ne.symm hne0) _ _
          rw [B_input_deliver_succ 2 _ _ 0 (by rfl)] at hw
          simp only [hb0, if_neg hinv.slot0] at hw
          have hinv1 : ReceiverInv
              { st with
                  B_index := (packet.seqnum - st.expectedseqnum + 8) % 8
                  packets_received := st.packets_received + 1
                  B_buffer := Function.update st.B_buffer
                    (slot ((packet.seqnum - st.expectedseqnum + 8) % 8)) packet
                  B_windowfirst := 0 } :=
            ⟨he0, he8, by simp only [hb0]; exact hinv.slot0⟩
          have hw1 := B_input_window_eq _ packet hinv1.e0 hinv1.e8 hs0 hs8
          simp only [if_pos hin, Function.update_same, ne_eq, not_true_eq_false,
            if_false] at hw1
          exact ⟨_, _, _, B_input_of_window _ _ _ _ hp hw, hinv1,
            B_input_of_window _ _ _ _ hp hw1, by simp [delivered]⟩
      · -- the slot already holds this sequence number
        rw [if_neg hdup] at hw
        have hinv1 : ReceiverInv
            { st with B_index := (packet.seqnum - st.expectedseqnum + 8) % 8 } :=
          ⟨he0, he8, hinv.slot0⟩
        have hw1 := B_input_window_eq _ packet hinv1.e0 hinv1.e8 hs0 hs8
        simp only [if_pos hin, if_neg hdup] at hw1
        exact ⟨_, _, _, B_input_of_window _ _ _ _ hp hw, hinv1,
          B_input_of_window _ _ _ _ hp hw1, by simp [delivered]⟩
    · -- outside the window
      rw [if_neg hin] at hw
      exact ⟨st, _, _, B_input_of_window _ _ _ _ hp hw, hinv,
        B_input_of_window _ _ _ _ hp hw, by simp [delivered]⟩

theorem ReceiverInv_init : ReceiverInv B_init :=
  ⟨by decide, by decide, by decide⟩

theorem BReachable.receiverInv {st : BState} (h : BReachable st) : ReceiverInv st := by
  induction h with
  | init => exact ReceiverInv_init
  | step st st1 packet ev _ hs0 hs8 hrun ih =>
    obtain ⟨st1', ev1, ev2, h1, hinv1, -, -⟩ := B_input_idem st packet ih hs0 hs8
    rw [h1] at hrun
    cases hrun
    exact hinv1

/-- C17: for a receiver state reachable from `B_init` by `B_input` calls on packets with
sequence numbers in `0 .. SEQSPACE - 1` and any such packet, corrupted or not, `B_input`
returns, and a second `B_input` on the same packet right after it returns too, hands
nothing to layer 5 and leaves the receiver state (all of it, so `expectedseqnum`,
`B_buffer` and `packets_received`) as the first call left it. -/
theorem B_input_repeated (st : BState) (hr : BReachable st) (packet : pkt)
    (hs0 : 0 ≤ packet.seqnum) (hs8 : packet.seqnum < SEQSPACE) :
    ∃ (st1 : BState) (ev1 ev2 : List Event),
      B_input st packet = some (st1, ev1) ∧
      B_input st1 packet = some (st1, ev2) ∧ delivered ev2 = [] := by
  obtain ⟨st1, ev1, ev2, h1, -, h2, hd⟩ := B_input_idem st packet hr.receiverInv hs0 hs8
  exact ⟨st1, ev1, ev2, h1, h2, hd⟩

theorem B_input_repeated_witness :
    (BReachable B_init ∧ 0 ≤ (mkPkt 0 NOTINUSE fun _ => 97).seqnum ∧
      (mkPkt 0 NOTINUSE fun _ => 97).seqnum < SEQSPACE) ∧
    ∃ (st1 : BState) (ev1 ev2 : List Event),
      B_input B_init (mkPkt 0 NOTINUSE fun _ => 97) = some (st1, ev1) ∧
      B_input st1 (mkPkt 0 NOTINUSE fun _ => 97) = some (st1, ev2) ∧ delivered ev2 = [] :=
  ⟨⟨BReachable.init, by decide, by decide⟩,
   B_input_repeated B_init BReachable.init (mkPkt 0 NOTINUSE fun _ => 97) (by decide)
     (by decide)⟩

/-- More fuel does not change a result of the delivery loop. -/
theorem B_input_deliver_fuel (m n : Nat) (st : BState) (ev : List Event)
    (r : BState × List Event) (h : B_input_deliver m st ev = some r) :
    B_input_deliver (m + n) st ev = some r := by
  induction m generalizing st ev with
  | zero =>
    unfold B_input_deliver at h
    split at h
    · cases h
    · rename_i b hb
      split at h
      · cases h
      · rename_i hne
        cases n with
        | zero => simp only [B_input_deliver, hb, if_neg hne]; exact h
        | succ n => simp only [Nat.zero_add, B_input_deliver, hb, if_neg hne]; exact h
  | succ m ih =>
    unfold B_input_deliver at h
    split at h
    · cases h
    · rename_i b hb
      rw [show m + 1 + n = (m + n) + 1 by omega]
      split at h
      · rename_i heq
        simp only [B_input_deliver, hb, if_pos heq]
        exact ih _ _ h
      · rename_i hne
        simp only [B_input_deliver, hb, if_neg hne]
        exact h

/-- C21: for `expectedseqnum` and `packet.seqnum` in `0 .. SEQSPACE - 1`, whatever
`B_buffer` and the other variables hold and whether the packet is corrupted or not,
`B_input` returns; it hands `k` payloads to layer 5, one for each pass of its delivery
loop, with `k` at most `WINDOWSIZE`, and leaves `expectedseqnum` at
`(expectedseqnum + k) mod SEQSPACE`.  The bound on the passes is the loop's own: entered
(`B_windowfirst = 0`) with `expectedseqnum` in `0 .. SEQSPACE - 1`, the loop leaves
through its test within three passes, and allowing it more passes does not change its
result. -/
theorem B_input_terminates (st : BState) (packet : pkt)
    (he0 : 0 ≤ st.expectedseqnum) (he8 : st.expectedseqnum < SEQSPACE)
    (hs0 : 0 ≤ packet.seqnum) (hs8 : packet.seqnum < SEQSPACE) :
    (∃ (st1 : BState) (ev : List Event) (k : Nat),
      B_input st packet = some (st1, ev) ∧
      (k : Int) ≤ WINDOWSIZE ∧ (delivered ev).length = k ∧
      st1.expectedseqnum = (st.expectedseqnum + k) % SEQSPACE) ∧
    ∀ (fuel : Nat) (st0 : BState), st0.B_windowfirst = 0 →
      0 ≤ st0.expectedseqnum → st0.expectedseqnum < SEQSPACE →
      ∃ r, B_input_deliver 3 st0 [] = some r ∧ B_input_deliver (3 + fuel) st0 [] = some r := by
  refine ⟨?_, ?_⟩
  · by_cases hp : IsCorrupted packet = false
    · have hw := B_input_window_eq st packet he0 he8 hs0 hs8
      have hz : st.expectedseqnum = (st.expectedseqnum + ((0 : Nat) : Int)) % SEQSPACE := by
        unfold SEQSPACE at *
        push_cast
        omega
      split at hw
      · split at hw
        · obtain ⟨⟨st1, ev1⟩, hd⟩ := B_input_deliver_terminates
            { st with
                B_index := (packet.seqnum - st.expectedseqnum + 8) % 8
                packets_received := st.packets_received + 1
                B_buffer := Function.update st.B_buffer
                  (slot ((packet.seqnum - st.expectedseqnum + 8) % 8)) packet
                B_windowfirst := 0 } [] rfl he0 he8
          rw [hd] at hw
          obtain ⟨-, -, -, -, k, ds, hk, hlen, hev, hexp, -, -⟩ :=
            B_input_deliver_spec _ _ _ _ _ hd he0 he8
          simp only at hexp
          refine ⟨st1, _, k, B_input_of_window _ _ _ _ hp hw, ?_, ?_, hexp⟩
          · unfold WINDOWSIZE
            omega
          · rw [hev]
            simp [delivered_append, delivered_tolayer5, delivered, hlen]
        · exact ⟨_, _, 0, B_input_of_window _ _ _ _ hp hw, by decide,
            by simp [delivered_append, delivered], hz⟩
      · exact ⟨_, _, 0, B_input_of_window _ _ _ _ hp hw, by decide,
          by simp [delivered_append, delivered], hz⟩
    · have hc : IsCorrupted packet = true := by simpa using hp
      refine ⟨st, [], 0, by simp [B_input, hc], by decide, rfl, ?_⟩
      unfold SEQSPACE at *
      push_cast
      omega
  · intro fuel st0 h0 e0 e8
    obtain ⟨r, hr⟩ := B_input_deliver_terminates st0 [] h0 e0 e8
    exact ⟨r, hr, B_input_deliver_fuel 3 fuel _ _ _ hr⟩

theorem B_input_terminates_witness :
    (0 ≤ twoWaiting.expectedseqnum ∧ twoWaiting.expectedseqnum < SEQSPACE ∧
      0 ≤ (mkPkt 0 NOTINUSE fun _ => 97).seqnum ∧
      (mkPkt 0 NOTINUSE fun _ => 97).seqnum < SEQSPACE) ∧
    ((∃ (st1 : BState) (ev : List Event) (k : Nat),
      B_input twoWaiting (mkPkt 0 NOTINUSE fun _ => 97) = some (st1, ev) ∧
      (k : Int) ≤ WINDOWSIZE ∧ (delivered ev).length = k ∧
      st1.expectedseqnum = (twoWaiting.expectedseqnum + k) % SEQSPACE) ∧
    ∀ (fuel : Nat) (st0 : BState), st0.B_windowfirst = 0 →
      0 ≤ st0.expectedseqnum → st0.expectedseqnum < SEQSPACE →
      ∃ r, B_input_deliver 3 st0 [] = some r ∧
        B_input_deliver (3 + fuel) st0 [] = some r) :=
  ⟨⟨by decide, by decide, by decide, by decide⟩,
   B_input_terminates twoWaiting (mkPkt 0 NOTINUSE fun _ => 97) (by decide) (by decide)
     (by decide) (by decide)⟩

/-- The bound of `WINDOWSIZE` deliveries in one call is attained: from `twoWaiting` the
uncorrupted packet 0 makes `B_input` hand the payloads of packets 0, 1 and 2 to layer 5
and leave `expectedseqnum` at 3. -/
theorem B_input_delivers_three :
    IsCorrupted (mkPkt 0 NOTINUSE fun _ => 97) = false ∧
    (B_input twoWaiting (mkPkt 0 NOTINUSE fun _ => 97)).map
        (fun r => (r.1.expectedseqnum, delivered r.2)) =
      some (3, [fun _ => 97, fun _ => 98, fun _ => 99]) := by
  set_option maxRecDepth 100000 in decide

end Sr1

/-! ## The sender of `sr.c` -/

namespace Sr

/-- C18: for `first_seq` and `A_nextseqnum` in `0 .. SEQSPACE - 1`, the window test of
`A_output` holds exactly when `(A_nextseqnum - first_seq) mod SEQSPACE < WINDOWSIZE`.
When it fails, `A_output` makes no call into the emulator and only `window_full` grows,
by one; when it holds, `A_output` is the send branch: the store of the new packet at the
computed index, the packet handed to layer 3, the timer started when `windowcount`
becomes 1. -/
theorem A_output_window_test (st : AState) (message : msg)
    (hf0 : 0 ≤ st.first_seq) (hf : st.first_seq < SEQSPACE)
    (hn0 : 0 ≤ st.A_nextseqnum) (hn : st.A_nextseqnum < SEQSPACE) :
    (inWindow st.first_seq (cmod (st.first_seq + WINDOWSIZE - 1) SEQSPACE) st.A_nextseqnum =
        true ↔ (st.A_nextseqnum - st.first_seq) % SEQSPACE < WINDOWSIZE) ∧
    (¬ (st.A_nextseqnum - st.first_seq) % SEQSPACE < WINDOWSIZE →
      A_output st message = some ({ st with window_full := st.window_full + 1 }, [])) ∧
    ((st.A_nextseqnum - st.first_seq) % SEQSPACE < WINDOWSIZE →
      A_output st message =
        (wr st.buffer (windowIndex st.first_seq st.A_nextseqnum)
            (mkPkt st.A_nextseqnum NOTINUSE message.data)).map
          fun buffer =>
            ({ st with
                 buffer := buffer
                 windowcount := st.windowcount + 1
                 A_nextseqnum := cmod (st.A_nextseqnum + 1) SEQSPACE },
             Event.tolayer3 Entity.A (mkPkt st.A_nextseqnum NOTINUSE message.data) ::
               (if st.windowcount + 1 = 1 then [Event.starttimer Entity.A RTT] else []))) := by
  have hlast : cmod (st.first_seq + WINDOWSIZE - 1) SEQSPACE = (st.first_seq + 5) % 12 := by
    rw [cmod_of_nonneg (by unfold WINDOWSIZE; omega)]
    unfold WINDOWSIZE SEQSPACE
    omega
  have key : inWindow st.first_seq (cmod (st.first_seq + WINDOWSIZE - 1) SEQSPACE)
      st.A_nextseqnum = true ↔ (st.A_nextseqnum - st.first_seq) % SEQSPACE < WINDOWSIZE := by
    rw [hlast]
    unfold inWindow SEQSPACE WINDOWSIZE at *
    simp only [decide_eq_true_eq]
    omega
  refine ⟨key, fun h => ?_, fun h => ?_⟩
  · have hk : ¬ inWindow st.first_seq (cmod (st.first_seq + WINDOWSIZE - 1) SEQSPACE)
        st.A_nextseqnum = true := fun c => h (key.1 c)
    simp only [A_output, hk]
    rfl
  · have hk := key.2 h
    rcases hwr : wr st.buffer (windowIndex st.first_seq st.A_nextseqnum)
      (mkPkt st.A_nextseqnum NOTINUSE message.data) with _ | buffer
    · simp only [mkPkt] at hwr
      simp only [A_output, hk, if_true, hwr]
      rfl
    · simp only [mkPkt] at hwr
      simp only [A_output, hk, if_true, hwr]
      rfl

theorem A_output_window_test_witness :
    (0 ≤ A_init.first_seq ∧ A_init.first_seq < SEQSPACE ∧
      0 ≤ A_init.A_nextseqnum ∧ A_init.A_nextseqnum < SEQSPACE) ∧
    ((inWindow A_init.first_seq (cmod (A_init.first_seq + WINDOWSIZE - 1) SEQSPACE)
          A_init.A_nextseqnum = true ↔
        (A_init.A_nextseqnum - A_init.first_seq) % SEQSPACE < WINDOWSIZE) ∧
      (¬ (A_init.A_nextseqnum - A_init.first_seq) % SEQSPACE < WINDOWSIZE →
        A_output A_init (msg.mk fun _ => 97) =
          some ({ A_init with window_full := A_init.window_full + 1 }, [])) ∧
      ((A_init.A_nextseqnum - A_init.first_seq) % SEQSPACE < WINDOWSIZE →
        A_output A_init (msg.mk fun _ => 97) =
          (wr A_init.buffer (windowIndex A_init.first_seq A_init.A_nextseqnum)
              (mkPkt A_init.A_nextseqnum NOTINUSE (msg.mk fun _ => 97).data)).map
            fun buffer =>
              ({ A_init with
                   buffer := buffer
                   windowcount := A_init.windowcount + 1
                   A_nextseqnum := cmod (A_init.A_nextseqnum + 1) SEQSPACE },
               Event.tolayer3 Entity.A
                   (mkPkt A_init.A_nextseqnum NOTINUSE (msg.mk fun _ => 97).data) ::
                 (if A_init.windowcount + 1 = 1 then [Event.starttimer Entity.A RTT]
                  else [])))) :=
  ⟨by decide, A_output_window_test A_init (msg.mk fun _ => 97) (by decide) (by decide)
    (by decide) (by decide)⟩

/-- C19, evaluated: in `wrappedWindow` (`first_seq = 8`, `A_nextseqnum = 1`) the next
sequence number lies in the send window and its offset from the window base is
`(1 - 8) mod 12 = 5`, but the index `A_output` computes is `WINDOWSIZE - 8 + 1 = -1`: the
store `buffer[index]` is outside the array and `A_output` has no defined result. -/
theorem wrapped_index_out_of_bounds :
    (0 ≤ wrappedWindow.first_seq ∧ wrappedWindow.first_seq < SEQSPACE ∧
      0 ≤ wrappedWindow.A_nextseqnum ∧ wrappedWindow.A_nextseqnum < SEQSPACE) ∧
    inWindow wrappedWindow.first_seq (cmod (wrappedWindow.first_seq + WINDOWSIZE - 1) SEQSPACE)
      wrappedWindow.A_nextseqnum = true ∧
    (wrappedWindow.A_nextseqnum - wrappedWindow.first_seq) % SEQSPACE = 5 ∧
    windowIndex wrappedWindow.first_seq wrappedWindow.A_nextseqnum = -1 ∧
    A_output wrappedWindow (msg.mk fun _ => 97) = none := by
  set_option maxRecDepth 100000 in decide

theorem rdMem_of_rd (mem : Int → pkt) (buffer : Fin 6 → pkt) (i : Int) (b : pkt)
    (h : rd buffer i = some b) : rdMem mem buffer i = b := by
  unfold rd at h
  unfold rdMem
  cases hk : arrIdx 6 i with
  | none => rw [hk] at h; cases h
  | some k => rw [hk] at h; simpa using h

theorem A_input_shift_mem_of_shift (mem : Int → pkt) (ackcount A_nextseqnum : Int)
    (l : List (Fin 6)) (buffer buffer' : Fin 6 → pkt)
    (h : A_input_shift ackcount A_nextseqnum l buffer = some buffer') :
    A_input_shift_mem mem ackcount A_nextseqnum l buffer = buffer' := by
  induction l generalizing buffer with
  | nil =>
    simp only [A_input_shift, Option.some.injEq] at h
    simp only [A_input_shift_mem, h]
  | cons i l ih =>
    unfold A_input_shift at h
    unfold A_input_shift_mem
    split at h
    · cases h
    · rename_i src hsrc
      rw [rdMem_of_rd mem _ _ _ hsrc]
      split at h
      · rename_i hc
        rw [if_pos hc]
        exact ih _ h
      · rename_i hc
        rw [if_neg hc]
        exact ih _ h

/-- Where `A_input` returns a result, `A_input_mem` returns the same one, whatever the
memory around the array holds. -/
theorem A_input_mem_of_A_input (mem : Int → pkt) (st : AState) (packet : pkt)
    (r : AState × List Event) (h : A_input st packet = some r) :
    A_input_mem mem st packet = some r := by
  unfold A_input at h
  unfold A_input_mem
  split at h
  · rename_i hp
    rw [if_pos hp]
    simp only at h ⊢
    split at h
    · rename_i bfirst blast hf hl
      rw [rdMem_of_rd mem _ _ _ hf, rdMem_of_rd mem _ _ _ hl]
      split at h
      · rename_i hw
        rw [if_pos hw]
        split at h
        · cases h
        · rename_i k hk
          split at h
          · rename_i hb
            rw [if_pos hb]
            split at h
            · cases h
            · rename_i buffer hs
              rw [A_input_shift_mem_of_shift mem _ _ _ _ _ hs]
              exact h
          · rename_i hb
            rw [if_neg hb]
            exact h
      · rename_i hw
        rw [if_neg hw]
        exact h
    · cases h
  · rename_i hp
    rw [if_neg hp]
    exact h

theorem inWindow_self (x g : Int) : inWindow x g x = true := by
  unfold inWindow
  simp only [decide_eq_true_eq]
  omega

theorem A_input_shift_mem_not_mem (mem : Int → pkt) (ackcount A_nextseqnum : Int)
    (l : List (Fin 6)) (buffer : Fin 6 → pkt) (k : Fin 6) (hk : k ∉ l) :
    A_input_shift_mem mem ackcount A_nextseqnum l buffer k = buffer k := by
  induction l generalizing buffer with
  | nil => rfl
  | cons i l ih =>
    have hki : k ≠ i := fun e => hk (by rw [e]; exact List.mem_cons_self _ _)
    have hkl : k ∉ l := fun e => hk (List.mem_cons_of_mem _ e)
    unfold A_input_shift_mem
    split
    · rw [ih _ hkl, Function.update_noteq hki]
    · exact ih _ hkl

/-- The shift by one slot, at slots 0 and 1, when slot 1 holds a packet marked
`NOTINUSE` whose successor is not `A_nextseqnum`: slot 0 takes the packet of slot 1, and
slot 1 is again marked `NOTINUSE`. -/
theorem A_input_shift_mem_one (mem : Int → pkt) (A_nextseqnum : Int) (buffer : Fin 6 → pkt)
    (h1 : (buffer 1).acknum = NOTINUSE)
    (hn : cmod ((buffer 1).seqnum + 1) SEQSPACE ≠ A_nextseqnum) :
    A_input_shift_mem mem 1 A_nextseqnum (List.finRange 6) buffer 0 = buffer 1 ∧
    (A_input_shift_mem mem 1 A_nextseqnum (List.finRange 6) buffer 1).acknum = NOTINUSE := by
  have h6 : List.finRange 6 = [0, 1, 2, 3, 4, 5] := by decide
  have r1 : rdMem mem buffer (((0 : Fin 6).val : Int) + 1) = buffer 1 := rfl
  have hnot0 : (0 : Fin 6) ∉ ([2, 3, 4, 5] : List (Fin 6)) := by decide
  have hnot1 : (1 : Fin 6) ∉ ([2, 3, 4, 5] : List (Fin 6)) := by decide
  rw [h6]
  unfold A_input_shift_mem
  rw [r1, if_pos (Or.inl h1)]
  unfold A_input_shift_mem
  have r2 : rdMem mem (Function.update buffer 0 (buffer 1)) (((1 : Fin 6).val : Int) + 1) =
      buffer 2 := rfl
  have u1 : Function.update buffer 0 (buffer 1) 1 = buffer 1 :=
    Function.update_noteq (by decide) _ _
  rw [r2, u1]
  split
  · rename_i hc
    have h2 : (buffer 2).acknum = NOTINUSE := by
      rcases hc with c | c
      · exact c
      · exact absurd c hn
    rw [A_input_shift_mem_not_mem _ _ _ _ _ _ hnot0, A_input_shift_mem_not_mem _ _ _ _ _ _ hnot1]
    constructor
    · rw [Function.update_noteq (by decide), Function.update_same]
    · rw [Function.update_same]; exact h2
  · rw [A_input_shift_mem_not_mem _ _ _ _ _ _ hnot0, A_input_shift_mem_not_mem _ _ _ _ _ _ hnot1]
    exact ⟨Function.update_same _ _ _, by rw [u1]; exact h1⟩

/-- `A_input_mem` on an uncorrupted ACK for the packet in slot 0, in a state of `sr.c`
(`windowfirst = 0`) where that packet is marked `NOTINUSE` and has a non-empty payload
and the packet in slot 1 is marked `NOTINUSE`: the base `first_seq` moves on by exactly
one and the buffer is shifted by one slot. -/
theorem A_input_mem_base (mem : Int → pkt) (st : AState) (packet : pkt)
    (hp : IsCorrupted packet = false) (hwf : st.windowfirst = 0)
    (hack : packet.acknum = (st.buffer 0).seqnum) (hne : packet.acknum ≠ NOTINUSE)
    (h0 : (st.buffer 0).acknum = NOTINUSE) (hpay : (st.buffer 0).payload 0 ≠ 0)
    (h1 : (st.buffer 1).acknum = NOTINUSE) :
    ∃ (st' : AState) (ev : List Event),
      A_input_mem mem st packet = some (st', ev) ∧
      st'.first_seq = cmod (st.first_seq + 1) SEQSPACE ∧
      st'.windowfirst = 0 ∧ st'.windowlast = st.windowlast ∧
      st'.A_nextseqnum = st.A_nextseqnum ∧ st'.windowcount = st.windowcount - 1 ∧
      st'.buffer = A_input_shift_mem mem 1 st.A_nextseqnum (List.finRange 6)
        (Function.update st.buffer 0 { st.buffer 0 with acknum := packet.acknum }) := by
  have hrd : rdMem mem st.buffer 0 = st.buffer 0 := rfl
  have hidx : windowIndex (st.buffer 0).seqnum packet.acknum = 0 := by
    unfold windowIndex
    rw [hack]
    simp
  have hin : ∀ g, inWindow (st.buffer 0).seqnum g packet.acknum = true := by
    intro g
    rw [hack]
    exact inWindow_self _ _
  have hif : (packet.acknum = (st.buffer 0).seqnum) = True := eq_true hack
  have h6 : List.finRange 6 = [0, 1, 2, 3, 4, 5] := by decide
  have hk : arrIdx 6 0 = some (0 : Fin 6) := rfl
  have hcount : A_input_ackcount
      (Function.update st.buffer 0 { st.buffer 0 with acknum := packet.acknum })
      (List.finRange 6) 0 = 1 := by
    rw [h6]
    unfold A_input_ackcount
    rw [Function.update_same, if_pos ⟨hne, hpay⟩]
    unfold A_input_ackcount
    rw [Function.update_noteq (by decide), if_neg (fun c => c.1 h1)]
    rfl
  simp only [A_input_mem, hp, Bool.not_false, if_true, hwf, hrd, hin, hidx, hk, h0, hif,
    hcount]
  exact ⟨_, _, rfl, rfl, rfl, rfl, rfl, rfl, rfl⟩

/-- `A_input_mem` on the ACK with `acknum` 2 after six packets were sent: whatever the
read `buffer[windowlast]` yields, the base and the packets in slots 0 and 1 stay as they
are. -/
theorem A_input_mem_sixSent_ack_two (mem : Int → pkt) :
    ∃ (st1 : AState) (ev : List Event),
      A_input_mem mem sixSent (mkPkt NOTINUSE 2 fun _ => 48) = some (st1, ev) ∧
      st1.first_seq = 0 ∧ st1.windowfirst = 0 ∧ st1.windowlast = -1 ∧
      st1.A_nextseqnum = 6 ∧
      st1.buffer 0 = sixSent.buffer 0 ∧ st1.buffer 1 = sixSent.buffer 1 := by
  have hp : IsCorrupted (mkPkt NOTINUSE 2 fun _ => 48) = false := Sr1.IsCorrupted_mkPkt _ _ _
  have hf : rdMem mem sixSent.buffer sixSent.windowfirst = sixSent.buffer 0 := rfl
  have hl : rdMem mem sixSent.buffer sixSent.windowlast = mem (-1) := rfl
  have hidx : arrIdx 6 (windowIndex (sixSent.buffer 0).seqnum
      (mkPkt NOTINUSE 2 fun _ => 48).acknum) = some (2 : Fin 6) := by decide
  have h2 : (sixSent.buffer 2).acknum = NOTINUSE := by decide
  have hne : ¬ (mkPkt NOTINUSE 2 fun _ => 48).acknum = (sixSent.buffer 0).seqnum := by decide
  simp only [A_input_mem, hp, Bool.not_false, if_true, hf, hl, hidx, h2, hne, if_false]
  split
  · exact ⟨_, _, rfl, rfl, rfl, rfl, rfl, rfl, rfl⟩
  · exact ⟨_, _, rfl, rfl, rfl, rfl, rfl, rfl, rfl⟩

/-- C16, evaluated: after `A_init` and `A_output` of six messages with non-zero first
byte the sender is `sixSent` (sequence numbers 0 to 5 in slots 0 to 5, `windowlast` still
-1).  `A_input` on the uncorrupted ACK with `acknum` 2 reads `buffer[windowlast]`, outside
the array, and has no defined result.  And in an execution where such a read yields
whatever the memory holds (`A_input_mem`), for every content of that memory the ACKs 2,
0, 1 leave the base `first_seq` at 0, then 1, then 2: it is not 3 after the three
ACKs. -/
theorem selective_base_stops_at_two :
    A_outputs A_init sixMsgs =
      some (sixSent, [Event.tolayer3 Entity.A (mkPkt 0 NOTINUSE fun _ => 97),
        Event.starttimer Entity.A RTT,
        Event.tolayer3 Entity.A (mkPkt 1 NOTINUSE fun _ => 98),
        Event.tolayer3 Entity.A (mkPkt 2 NOTINUSE fun _ => 99),
        Event.tolayer3 Entity.A (mkPkt 3 NOTINUSE fun _ => 100),
        Event.tolayer3 Entity.A (mkPkt 4 NOTINUSE fun _ => 101),
        Event.tolayer3 Entity.A (mkPkt 5 NOTINUSE fun _ => 102)]) ∧
    A_input sixSent (mkPkt NOTINUSE 2 fun _ => 48) = none ∧
    ∀ mem : Int → pkt, ∃ (st1 st2 st3 : AState),
      A_inputs_mem mem sixSent
        [mkPkt NOTINUSE 2 fun _ => 48, mkPkt NOTINUSE 0 fun _ => 48,
         mkPkt NOTINUSE 1 fun _ => 48] = some [st1, st2, st3] ∧
      st1.first_seq = 0 ∧ st2.first_seq = 1 ∧ st3.first_seq = 2 := by
  refine ⟨by set_option maxRecDepth 100000 in decide,
    by set_option maxRecDepth 100000 in decide, fun mem => ?_⟩
  obtain ⟨st1, ev1, hr1, hfs1, hwf1, hwl1, hns1, hb0, hb1⟩ := A_input_mem_sixSent_ack_two mem
  obtain ⟨st2, ev2, hr2, hfs2, hwf2, hwl2, hns2, -, hbuf2⟩ := A_input_mem_base mem st1
    (mkPkt NOTINUSE 0 fun _ => 48) (Sr1.IsCorrupted_mkPkt _ _ _) hwf1
    (by rw [hb0]; rfl) (by decide) (by rw [hb0]; rfl) (by rw [hb0]; decide)
    (by rw [hb1]; rfl)
  have hshift := A_input_shift_mem_one mem st1.A_nextseqnum
    (Function.update st1.buffer 0
      { st1.buffer 0 with acknum := (mkPkt NOTINUSE 0 fun _ => 48).acknum })
    (by rw [Function.update_noteq (by decide), hb1]; rfl)
    (by rw [Function.update_noteq (by decide), hb1, hns1]; decide)
  rw [← hbuf2, Function.update_noteq (by decide), hb1] at hshift
  obtain ⟨st3, ev3, hr3, hfs3, -, -, -, -, -⟩ := A_input_mem_base mem st2
    (mkPkt NOTINUSE 1 fun _ => 48) (Sr1.IsCorrupted_mkPkt _ _ _) hwf2
    (by rw [hshift.1]; rfl) (by decide) (by rw [hshift.1]; rfl)
    (by rw [hshift.1]; decide) hshift.2
  refine ⟨st1, st2, st3, ?_, hfs1, ?_, ?_⟩
  · simp only [A_inputs_mem, hr1, hr2, hr3]
  · rw [hfs2, hfs1]; decide
  · rw [hfs3, hfs2, hfs1]; decide

end Sr
